import Mathlib

/-!
# Verification of the code-planner review pipeline

A shallow embedding, in Lean 4, of the core logic of the `code-planner`
repository: the model catalog and resolver, the file ranker, the bounded
file loader, the scope parser and glob matcher, the multi-provider model
runner, the pipeline orchestrator, the rate limiter, and the two HTTP
entry points (the standard pipeline run route and the agent-mode review
route).  Network effects (GitHub fetches, LLM provider calls) are modelled
as oracle parameters: pure functions supplying the outcome of each outbound
call.  JavaScript strings are modelled as Lean `String` (their `.data`
character lists carry the proofs), JavaScript numbers as `Nat`/`Int`.
-/

/-! ## JavaScript string primitives

Character-list based models of the JavaScript string operations used by the
source (`trim`, `includes`, `startsWith`, `endsWith`).  Working on `.data`
lists keeps every definition executable and proof-friendly. -/

/-- The JavaScript `StrWhiteSpace` set used by `String.prototype.trim` and
`parseInt`: Unicode whitespace and line terminators, not just ASCII. -/
def jsWhitespace (c : Char) : Bool :=
  ([' ', '\t', '\n', '\r', '\x0b', '\x0c', '\u00A0', '\u1680', '\u2000',
    '\u2001', '\u2002', '\u2003', '\u2004', '\u2005', '\u2006', '\u2007',
    '\u2008', '\u2009', '\u200A', '\u2028', '\u2029', '\u202F', '\u205F',
    '\u3000', '\uFEFF'] : List Char).contains c

/-- JavaScript `String.prototype.trim` on a character list: drop leading
and trailing whitespace. -/
def jsTrimList (l : List Char) : List Char :=
  ((l.dropWhile jsWhitespace).reverse.dropWhile jsWhitespace).reverse

/-- JavaScript `String.prototype.trim`. -/
def jsTrim (s : String) : String :=
  String.mk (jsTrimList s.data)

/-- Substring search on character lists: does `sub` occur contiguously in the
second argument? -/
def charsInfixOf (sub : List Char) : List Char → Bool
  | [] => sub.isEmpty
  | c :: rest => sub.isPrefixOf (c :: rest) || charsInfixOf sub rest

/-- JavaScript `a.includes(b)`: substring containment. -/
def jsIncludes (s sub : String) : Bool :=
  charsInfixOf sub.data s.data

/-- JavaScript `a.startsWith(b)`. -/
def jsStartsWith (s pre : String) : Bool :=
  pre.data.isPrefixOf s.data

/-- JavaScript `a.endsWith(b)`. -/
def jsEndsWith (s suf : String) : Bool :=
  suf.data.isSuffixOf s.data

/-- Split a character list at every occurrence of `sep`, keeping empty
pieces (JavaScript `String.prototype.split` with a one-character
separator always yields a non-empty array). -/
def splitOnChar (sep : Char) : List Char → List (List Char)
  | [] => [[]]
  | c :: rest =>
    let r := splitOnChar sep rest
    if c = sep then [] :: r
    else
      match r with
      | [] => [[c]]
      | h :: t => (c :: h) :: t

/-- JavaScript `s.split(sep).pop() ?? s` (the last segment; the array is
never empty, so the `?? s` fallback of the source is dead). -/
def lastSegment (sep : Char) (s : String) : String :=
  match (splitOnChar sep s.data).getLast? with
  | some l => String.mk l
  | none => s

/-- JavaScript `String.prototype.toLowerCase` (ASCII, as used on paths). -/
def jsToLower (s : String) : String :=
  String.mk (s.data.map Char.toLower)

/-- The decimal digit character for `n < 10` (JS number printing helper). -/
def digitChar (n : Nat) : Char := Char.ofNat (48 + n)

/-- Fuel-driven canonical decimal printer (the recursion consumes one fuel
per digit; `numToChars` supplies enough). -/
def numToCharsAux : Nat → Nat → List Char
  | 0, _ => []
  | fuel + 1, n =>
    if n < 10 then [digitChar n]
    else numToCharsAux fuel (n / 10) ++ [digitChar (n % 10)]

/-- Canonical decimal digits of a natural number. -/
def numToChars (n : Nat) : List Char := numToCharsAux (n + 1) n

/-- JavaScript `Number.prototype.toString()` on a non-negative integer:
the canonical decimal numeral. -/
def numToString (n : Nat) : String := String.mk (numToChars n)

/-- JavaScript `Number.prototype.toString()` on an arbitrary integer. -/
def intToString (m : Int) : String :=
  if m < 0 then "-" ++ numToString m.natAbs else numToString m.toNat

/-- Accumulate the value of a decimal digit list (helper for `parseInt`). -/
def digitsToNat (cs : List Char) : Nat :=
  cs.foldl (fun acc c => acc * 10 + (c.toNat - 48)) 0

/-- The optional leading sign of `parseInt` (helper). -/
def stripSign (cs : List Char) : Bool × List Char :=
  match cs with
  | [] => (false, [])
  | c :: rest =>
    if c = '-' then (true, rest)
    else if c = '+' then (false, rest)
    else (false, c :: rest)

/-- Bit length of a natural number (fuel-driven so it evaluates in the
kernel; `n` fuel suffices since the bit length of `n ≥ 1` is at most `n`). -/
def natBitsAux : Nat → Nat → Nat
  | 0, _ => 0
  | fuel + 1, n => if n = 0 then 0 else natBitsAux fuel (n / 2) + 1

def natBits (n : Nat) : Nat := natBitsAux n n

/-- Round a non-negative integer to the nearest IEEE-754 double (53-bit
significand, round-half-to-even), as `Number` arithmetic does when
`parseInt` converts a long digit string: exact below `2^53`, rounded above.
(Values at or above `2^1024` would be `Infinity` in JS; they are screened
out by the `10^21` `toString` threshold in `isCommitCount` before the
rounded value could be observed.) -/
def roundToDouble53 (n : Nat) : Nat :=
  let b := natBits n
  if b ≤ 53 then n
  else
    let e := b - 53
    let q := n / 2 ^ e
    let r := n % 2 ^ e
    let half := 2 ^ (e - 1)
    let q2 := if half < r ∨ (r = half ∧ q % 2 = 1) then q + 1 else q
    q2 * 2 ^ e

/-- JavaScript `parseInt(s, 10)`: skip leading whitespace, read an optional
sign and then the longest digit prefix; `none` models `NaN` (no digits).
The result is a double, so the exact digit value is rounded to 53-bit
precision. -/
def parseInt10 (s : String) : Option Int :=
  let sr := stripSign (s.data.dropWhile jsWhitespace)
  let ds := sr.2.takeWhile Char.isDigit
  if ds.isEmpty then none
  else
    let v := roundToDouble53 (digitsToNat ds)
    some (if sr.1 then -(v : Int) else (v : Int))

/-! ## Model catalog and resolver (`src/lib/model-catalog.ts`) -/

/-- The fixed closed provider set. -/
inductive ProviderId where
  | openai
  | anthropic
  | google
deriving DecidableEq, Repr

/-- `OPENAI_CHAT_MODELS` (ids only; display names are irrelevant here). -/
def OPENAI_CHAT_MODELS : List String :=
  [ "gpt-5.2-chat-latest", "gpt-5.2-pro", "gpt-5.2-pro-2025-12-11",
    "gpt-5.1-chat-latest",
    "gpt-5-chat-latest", "gpt-5-pro", "gpt-5-pro-2025-10-06",
    "gpt-5-mini", "gpt-5-mini-2025-08-07" ]

/-- `ANTHROPIC_MODELS` (ids only). -/
def ANTHROPIC_MODELS : List String :=
  [ "claude-opus-4-5", "claude-sonnet-4-5", "claude-haiku-4-5" ]

def DEFAULT_OPENAI_MODEL : String := "gpt-4"
def DEFAULT_ANTHROPIC_MODEL : String := "claude-sonnet-4-5"
def DEFAULT_GOOGLE_MODEL : String := "gemini-2.5-pro"

/-- `getDefaultModel`. -/
def getDefaultModel : ProviderId → String
  | .openai => DEFAULT_OPENAI_MODEL
  | .anthropic => DEFAULT_ANTHROPIC_MODEL
  | .google => DEFAULT_GOOGLE_MODEL

/-- The `completionModels` prefix blocklist inside `validateModelId`. -/
def completionModelPrefixes : List String :=
  [ "text-davinci", "text-curie", "text-babbage", "text-ada",
    "davinci", "curie", "babbage", "ada" ]

/-- `validateModelId(provider, modelId)`.  `none` models `null`/`undefined`;
`some ""` is falsy in JS, hence also yields the default. -/
def validateModelId (provider : ProviderId) (modelId : Option String) : String :=
  match modelId with
  | none => getDefaultModel provider
  | some s =>
    if s = "" then getDefaultModel provider
    else
      match provider with
      | .openai =>
        if OPENAI_CHAT_MODELS.contains s then s
        else if completionModelPrefixes.any (fun p => jsStartsWith s p) then
          getDefaultModel .openai
        else if jsStartsWith s "gpt-" || jsStartsWith s "o1-" then s
        else getDefaultModel .openai
      | .anthropic =>
        if ANTHROPIC_MODELS.contains s then s else getDefaultModel .anthropic
      | .google =>
        -- `modelId || getDefaultModel(provider)`; `s` is non-empty here.
        if s = "" then getDefaultModel .google else s

/-- The per-provider model selection map (`ModelSelection`). -/
structure ModelSelection where
  openai : Option String
  anthropic : Option String
  google : Option String
deriving DecidableEq, Repr

/-- `selectedModels[provider]` lookup. -/
def ModelSelection.forProvider (sel : ModelSelection) : ProviderId → Option String
  | .openai => sel.openai
  | .anthropic => sel.anthropic
  | .google => sel.google

/-- `resolveModelForProvider(provider, selectedModels, override)` =
`validateModelId(provider, override ?? selectedModels[provider])`. -/
def resolveModelForProvider (provider : ProviderId) (selectedModels : ModelSelection)
    (override : Option String) : String :=
  let requested := match override with
    | some s => some s
    | none => selectedModels.forProvider provider
  validateModelId provider requested

/-! ## Repository search (`src/lib/pipeline/repo-search.ts`) -/

/-- One entry of the recursive GitHub tree listing. -/
structure TreeItem where
  path : String
  type : String
  sha : String
deriving DecidableEq, Repr

/-- `scorePath(path, keywords)`: heuristic relevance score. -/
def scorePath (path : String) (keywords : List String) : Int :=
  let p := jsToLower path
  let filename := lastSegment '/' p
  let base : Int := keywords.foldl
    (fun acc k =>
      if jsIncludes filename k then acc + 8
      else if jsIncludes p k then acc + 4
      else acc) 0
  let base := if keywords.any (fun k =>
        ["ui", "react", "component", "modal", "page"].contains k) &&
      (jsEndsWith p ".tsx" || jsEndsWith p ".jsx") then base + 2 else base
  let base := if keywords.any (fun k =>
        ["api", "route", "endpoint", "server"].contains k) &&
      jsIncludes p "/api/" then base + 2 else base
  let base := if keywords.any (fun k =>
        ["auth", "login", "oauth", "nextauth"].contains k) &&
      jsIncludes p "auth" then base + 2 else base
  let base := if jsIncludes p "node_modules/" then base - 100 else base
  let base := if jsIncludes p ".next/" then base - 100 else base
  if jsEndsWith p ".lock" then base - 5 else base

/-- Stable descending insertion (an element is placed after every earlier
element of equal score), auxiliary to `sortByScoreDesc`. -/
def insertScoreDesc (x : String × Int) : List (String × Int) → List (String × Int)
  | [] => [x]
  | y :: rest => if y.2 < x.2 then x :: y :: rest else y :: insertScoreDesc x rest

/-- `Array.prototype.sort((a, b) => b.score - a.score)`: a stable descending
sort by score (ES2019 sort is stable; modelled by stable insertion sort). -/
def sortByScoreDesc : List (String × Int) → List (String × Int)
  | [] => []
  | x :: rest => insertScoreDesc x (sortByScoreDesc rest)

/-- `rankFiles(tree, keywords, maxFiles)`: keep file-type entries, score,
drop non-positive scores, sort descending, truncate to
`max(maxFiles * 2, 20)` paths. -/
def rankFiles (tree : List TreeItem) (keywords : List String) (maxFiles : Nat) :
    List String :=
  let blobs := tree.filter (fun t => t.type = "blob")
  let ranked := (blobs.map (fun b => (b.path, scorePath b.path keywords))).filter
    (fun r => 0 < r.2)
  ((sortByScoreDesc ranked).take (max (maxFiles * 2) 20)).map (fun r => r.1)

/-! ## Content sanitizer (`src/auth.ts`, `sanitizeFileContent`) -/

/-- `sanitizeFileContent(content, maxLength)`.  The three regex rewriting
passes of the source (role-prefix rewriting, `<|...|>` token stripping,
injection-phrase redaction) are abstracted as the parameter `clean`: every
claim settled here depends only on the final `.slice(0, maxLength)`
truncation, which is embedded exactly.  Empty input yields `""`. -/
def sanitizeFileContent (clean : String → String) (content : String)
    (maxLength : Nat) : String :=
  if content = "" then ""
  else String.mk ((clean content).data.take maxLength)

/-! ## Bounded file loader (`src/lib/pipeline/file-loader.ts`) -/

/-- A fetched repository file (`FileWithContent`). -/
structure FileWithContent where
  path : String
  content : String
deriving DecidableEq, Repr

def MAX_TOTAL_CHARS : Nat := 220000
def MAX_FILE_CHARS : Nat := 30000

/-- Split a path list into batches of `c` (the `for (i = 0; i < n; i += c)`
slicing).  Fuel-driven so that it evaluates in the kernel; `l.length` fuel
suffices for every `c ≥ 1` (a `c = 0` step would not terminate in JS
either). -/
def chunksOfAux (c : Nat) : Nat → List α → List (List α)
  | 0, _ => []
  | _, [] => []
  | fuel + 1, l => l.take c :: chunksOfAux c fuel (l.drop c)

/-- The batch decomposition used by both concurrent loaders. -/
def chunksOf (c : Nat) (l : List α) : List (List α) := chunksOfAux c l.length l

/-- One fetch inside a batch of `fetchFilesWithEarlyTermination`:
a fetch error (`none`) or an oversized raw file is dropped (`null` in the
source); otherwise the sanitized content is kept. -/
def fetchOne (clean : String → String) (fetchRes : String → Option String)
    (path : String) : Option FileWithContent :=
  match fetchRes path with
  | none => none
  | some content =>
    if MAX_FILE_CHARS < content.length then none
    else some ⟨path, sanitizeFileContent clean content MAX_FILE_CHARS⟩

/-- The `for (const file of batchResults)` accumulation loop: add kept files
in batch order to `results`, tracking `totalChars`; on the first file that
would exceed `MAX_TOTAL_CHARS`, keep a prefix of the remaining budget only
when that budget exceeds 1000, and signal early return (`true`). -/
def addBatch : List FileWithContent → List FileWithContent → Nat →
    List FileWithContent × Nat × Bool
  | [], results, total => (results, total, false)
  | f :: rest, results, total =>
    if MAX_TOTAL_CHARS < total + f.content.length then
      let remaining := MAX_TOTAL_CHARS - total
      if 1000 < remaining then
        (results ++ [⟨f.path, String.mk (f.content.data.take remaining)⟩],
          total, true)
      else (results, total, true)
    else addBatch rest (results ++ [f]) (total + f.content.length)

/-- The outer batch loop of `fetchFilesWithEarlyTermination`: processed
batches are strictly sequential, and both the early `return` inside a batch
and the `totalChars >= MAX_TOTAL_CHARS` check stop all further batches. -/
def loaderLoop (clean : String → String) (fetchRes : String → Option String) :
    List (List String) → List FileWithContent → Nat → List FileWithContent
  | [], results, _ => results
  | batch :: more, results, total =>
    if MAX_TOTAL_CHARS ≤ total then results
    else
      let kept := batch.filterMap (fetchOne clean fetchRes)
      match addBatch kept results total with
      | (results2, _, true) => results2
      | (results2, total2, false) => loaderLoop clean fetchRes more results2 total2

/-- `fetchFilesWithEarlyTermination(paths, ..., concurrency)`.  The per-file
fetch is the oracle `fetchRes` (`none` models a thrown fetch error, which
the source swallows). -/
def fetchFilesWithEarlyTermination (clean : String → String)
    (fetchRes : String → Option String) (paths : List String)
    (concurrency : Nat := 4) : List FileWithContent :=
  loaderLoop clean fetchRes (chunksOf concurrency paths) [] 0

/-! ## Rate limiter (`src/lib/rate-limit.ts`) -/

/-- `checkRateLimit(key, maxRequests, windowMs)` for one key: the stored
timestamp list and the current time are explicit.  Returns the admission
decision and the updated timestamp list (on rejection the map is left
unchanged, as in the source). -/
def checkRateLimit (timestamps : List Int) (now : Int)
    (maxRequests : Nat := 10) (windowMs : Int := 60000) : Bool × List Int :=
  let valid := timestamps.filter (fun t => now - t < windowMs)
  if maxRequests ≤ valid.length then (false, timestamps)
  else (true, valid ++ [now])

/-! ## Scope resolver (`src/lib/scope-parser.ts`) -/

inductive ScopeType where
  | file
  | glob
  | commits
  | empty
  | invalid
deriving DecidableEq, Repr

/-- `ParsedScope`.  `commitCount` is set exactly for the `commits` variant. -/
structure ParsedScope where
  type : ScopeType
  value : String
  commitCount : Option Nat
deriving DecidableEq, Repr

/-- The recognized source-file extension list of `isFilePath`
(the `$`-anchored, case-insensitive regex alternation). -/
def sourceFileExtensions : List String :=
  [ "ts", "tsx", "js", "jsx", "py", "java", "go", "rs", "rb", "php", "cs",
    "cpp", "c", "h", "hpp", "vue", "svelte", "html", "css", "scss", "json",
    "yaml", "yml", "md", "sql", "sh", "bash" ]

/-- `isFilePath(scope)`: contains `/` and (has a recognized extension, or
its last `/`-segment contains a `.`). -/
def isFilePath (scope : String) : Bool :=
  if !(jsIncludes scope "/") then false
  else
    let hasExtension := sourceFileExtensions.any
      (fun ext => jsEndsWith (jsToLower scope) ("." ++ ext))
    hasExtension || jsIncludes (lastSegment '/' scope) "."

/-- `isGlobPattern(scope)`: contains `*`, `?` or `[`. -/
def isGlobPattern (scope : String) : Bool :=
  jsIncludes scope "*" || jsIncludes scope "?" || jsIncludes scope "["

/-- `isCommitCount(scope)`: `parseInt` succeeds, is positive, and prints
back to the trimmed input.  The `m < 10^21` conjunct embeds
`Number.prototype.toString`'s switch to exponential notation at `1e21`:
for `m ≥ 1e21` the rendered string contains `.`/`e+` and can never equal a
trimmed string whose digit prefix parses to `m` (that prefix would parse to
a small number instead), so the comparison is false; below `1e21` an
integer-valued double prints as its canonical decimal numeral. -/
def isCommitCount (scope : String) : Bool :=
  match parseInt10 scope with
  | none => false
  | some m =>
    decide (0 < m) && decide (m < 10 ^ 21) && (intToString m = jsTrim scope)

/-- `parseScope(scope)`; `none` models `null`/`undefined`. -/
def parseScope (scope : Option String) : ParsedScope :=
  let trimmed := jsTrim (scope.getD "")
  if trimmed = "" then ⟨.empty, "", none⟩
  else if isCommitCount trimmed then
    ⟨.commits, trimmed, some ((parseInt10 trimmed).getD 0).toNat⟩
  else if isGlobPattern trimmed then ⟨.glob, trimmed, none⟩
  else if isFilePath trimmed then ⟨.file, trimmed, none⟩
  else if jsIncludes trimmed "/" then ⟨.file, trimmed, none⟩
  else ⟨.invalid, trimmed, none⟩

/-- `getScopeDescription(scope)`. -/
def getScopeDescription (scope : ParsedScope) : String :=
  match scope.type with
  | .empty => "Review files changed in last commit"
  | .commits =>
    "Review files changed in last " ++
      (match scope.commitCount with
        | some n => numToString n
        | none => "undefined") ++ " commit(s)"
  | .file => "Review file: " ++ scope.value
  | .glob => "Review files matching: " ++ scope.value
  | .invalid => "Invalid scope: " ++ scope.value

/-! ## Glob matching (`globToRegex` / `matchesGlob`)

`globToRegex` escapes every regex metacharacter except `*` and `?`, then
rewrites `**` to `.*`, `*` to `[^/]*` and `?` to `[^/]`, and prepends `^`
unless the pattern starts with `.*`.  No `$` is ever appended.  The
resulting regex is exactly a sequence of four kinds of atoms, embedded here
as a token list; `RegExp.prototype.test` is an anywhere-search, embedded as
a prefix match tried at the anchor (or, when the pattern starts with `**`,
at every start position). -/

inductive GTok where
  | lit (c : Char)
  | star
  | qmark
  | dstar
deriving DecidableEq, Repr

/-- Tokenize a glob: the global `**` replacement pairs stars greedily from
the left (`***` is `**` then `*`), matching the source's sequential
`String.prototype.replace` passes. -/
def globTokens : List Char → List GTok
  | [] => []
  | '*' :: '*' :: rest => .dstar :: globTokens rest
  | '*' :: rest => .star :: globTokens rest
  | '?' :: rest => .qmark :: globTokens rest
  | c :: rest => .lit c :: globTokens rest

/-- Does some prefix of `cs` match the token sequence?  (The compiled regex
has no end anchor, so a match may end anywhere.)  Fuel-driven: every step
shortens `ts` or `cs`, so `ts.length + cs.length + 1` fuel suffices. -/
def matchPrefixAux : Nat → List GTok → List Char → Bool
  | 0, _, _ => false
  | _ + 1, [], _ => true
  | _ + 1, .lit _ :: _, [] => false
  | _ + 1, .qmark :: _, [] => false
  | fuel + 1, .lit c :: ts, x :: cs =>
    c = x && matchPrefixAux fuel ts cs
  | fuel + 1, .qmark :: ts, x :: cs =>
    !(x = '/') && matchPrefixAux fuel ts cs
  | fuel + 1, .star :: ts, [] => matchPrefixAux fuel ts []
  | fuel + 1, .star :: ts, x :: cs =>
    matchPrefixAux fuel ts (x :: cs) ||
      (!(x = '/') && matchPrefixAux fuel (.star :: ts) cs)
  | fuel + 1, .dstar :: ts, [] => matchPrefixAux fuel ts []
  | fuel + 1, .dstar :: ts, x :: cs =>
    matchPrefixAux fuel ts (x :: cs) || matchPrefixAux fuel (.dstar :: ts) cs

/-- Prefix match with sufficient fuel. -/
def matchPrefix (ts : List GTok) (cs : List Char) : Bool :=
  matchPrefixAux (ts.length + cs.length + 1) ts cs

/-- Is the compiled pattern `^`-anchored?  The source prepends `^` exactly
when the translated pattern does not start with `.*`, i.e. when the token
list does not start with `**`. -/
def globAnchored : List GTok → Bool
  | .dstar :: _ => false
  | _ => true

/-- `matchesGlob(filePath, glob)`: the `^` anchor is present unless the
token list starts with `**`; an unanchored `RegExp.test` searches every
start position. -/
def matchesGlob (filePath : String) (glob : String) : Bool :=
  let ts := globTokens glob.data
  if globAnchored ts then matchPrefix ts filePath.data
  else
    (List.range (filePath.data.length + 1)).any
      (fun i => matchPrefix ts (filePath.data.drop i))

/-! ## Multi-provider model runner (`src/lib/pipeline/model-runner.ts`) -/

/-- One provider result (`{ model, output }`). -/
structure ModelResult where
  model : ProviderId
  output : String
deriving DecidableEq, Repr

/-- `buildContext(files)`: each file as a path-comment header plus content,
joined with blank lines. -/
def buildContext (files : List FileWithContent) : String :=
  String.intercalate "\n\n"
    (files.map (fun f => "// " ++ f.path ++ "\n" ++ f.content))

/-- The `Promise.all(models.map(...))` fan-out of `runModels`: one call per
provider, each resolving its model id independently; any failing call fails
the whole batch (`Except.error`), and successful results keep the input
order.  `call` is the provider-call oracle
`(provider, systemPrompt, userPrompt, modelId) ↦ outcome`. -/
def runModelCalls (call : ProviderId → String → String → String → Except String String)
    (systemPrompt finalUserPrompt : String) (selectedModels : ModelSelection) :
    List ProviderId → Except String (List ModelResult)
  | [] => .ok []
  | m :: rest => do
    let modelId := resolveModelForProvider m selectedModels none
    let output ← call m systemPrompt finalUserPrompt modelId
    let tail ← runModelCalls call systemPrompt finalUserPrompt selectedModels rest
    .ok (⟨m, output⟩ :: tail)

/-- `runModels(models, systemPrompt, improvedUserPrompt, files,
selectedModels)`. -/
def runModels (call : ProviderId → String → String → String → Except String String)
    (models : List ProviderId) (systemPrompt improvedUserPrompt : String)
    (files : List FileWithContent) (selectedModels : ModelSelection) :
    Except String (List ModelResult) :=
  let finalUserPrompt := improvedUserPrompt ++ "\n\n" ++ buildContext files
  runModelCalls call systemPrompt finalUserPrompt selectedModels models

/-! ## Pipeline orchestrator (`src/lib/pipeline/orchestrator.ts`,
`executePipeline`) -/

/-- The improver stage's validated output (`ImproverOutput`). -/
structure ImproverOutput where
  improvedUserPrompt : String
  keywords : List String
  maxFiles : Nat
deriving DecidableEq, Repr

/-- A `PipelineRunRequest` as validated by `validatePipelineRequest`. -/
structure PipelineRunRequest where
  repo : String
  branch : String
  systemPrompt : String
  userMessage : String
  models : List ProviderId
  selectedModels : ModelSelection
  improverProvider : ProviderId
  improverModelId : Option String
  consolidatorProvider : ProviderId
  consolidatorModelId : Option String
deriving DecidableEq, Repr

/-- Outcomes of the orchestrator's outbound calls.  `improve` is the result
of the prompt-improver stage (`improvePrompt`, one provider round trip whose
failure is fatal), `tree` of `fetchRepoTree`, `fetchFile` the per-file
content fetch used by the bounded loader, `clean` the sanitizer's rewriting
passes, `callModel` the per-provider LLM call of the model runner, and
`consolidate` the consolidation call. -/
structure PipelineOracles where
  improve : Except String ImproverOutput
  tree : Except String (List TreeItem)
  fetchFile : String → Option String
  clean : String → String
  callModel : ProviderId → String → String → String → Except String String
  consolidate : Except String String

/-- `PipelineResult.meta`. -/
structure PipelineMeta where
  repo : String
  branch : String
  selectedFiles : List String
  keywords : List String
  warning : Option String
deriving DecidableEq, Repr

/-- `PipelineResult`. -/
structure PipelineResult where
  results : List ModelResult
  consolidated : String
  meta : PipelineMeta
deriving DecidableEq, Repr

/-- `executePipeline(request, sessionToken, onProgress)`: improver → search
→ bounded load → model fan-out → consolidation.  Zero ranked paths degrade
to a prompt-only run with a warning; zero loaded files likewise with a
different warning; progress emission carries no data and is omitted. -/
def executePipeline (o : PipelineOracles) (req : PipelineRunRequest) :
    Except String PipelineResult := do
  let imp ← o.improve
  let tree ← o.tree
  let rankedPaths := rankFiles tree imp.keywords imp.maxFiles
  let (files, warning) :=
    if rankedPaths.isEmpty then
      (([] : List FileWithContent),
        some "No relevant files found. Running with prompt-only context.")
    else
      let fs := fetchFilesWithEarlyTermination o.clean o.fetchFile rankedPaths 4
      (fs, if fs.isEmpty then
        some "Could not load any files. Running with prompt-only context."
      else none)
  let results ← runModels o.callModel req.models req.systemPrompt
    imp.improvedUserPrompt files req.selectedModels
  let consolidated ← o.consolidate
  .ok { results, consolidated,
        meta := { repo := req.repo, branch := req.branch,
                  selectedFiles := files.map (fun f => f.path),
                  keywords := imp.keywords, warning } }

/-! ## Standard pipeline run route (`src/app/api/pipeline/run/route.ts`) -/

/-- The observable outcome of the streaming pipeline route: a 429
rate-limit rejection with its `retryAfter` value, a 400 validation
rejection, or the single terminal stream frame (`error` or `result`). -/
inductive PipelineRouteResponse where
  | rateLimited (retryAfter : Nat)
  | badRequest (msg : String)
  | errorFrame (msg : String)
  | resultFrame (result : PipelineResult)
deriving DecidableEq, Repr

/-- The `POST` handler of the pipeline run route, for an authenticated
caller.  `limits`/`now` are the rate limiter's stored timestamps for the
caller's key and the current time; `validation` is the outcome of
`req.json()` plus `validatePipelineRequest` (which throws on a malformed
body).  The rate-limit admission check runs before the body is read, so a
rejection depends on nothing else. -/
def pipelineRunPOST (now : Int) (limits : List Int)
    (validation : Except String PipelineRunRequest) (o : PipelineOracles) :
    PipelineRouteResponse :=
  if (checkRateLimit limits now 10 60000).1 = false then .rateLimited 60
  else
    match validation with
    | .error msg => .badRequest msg
    | .ok req =>
      match executePipeline o req with
      | .error msg => .errorFrame msg
      | .ok result => .resultFrame result

/-! ## Agent-mode review route (`src/app/api/run/route.ts`) -/

/-- The four fixed specialist roles. -/
inductive ReviewAgent where
  | bugDetector
  | securityAuditor
  | performanceOptimizer
  | refactoringArchitect
deriving DecidableEq, Repr

/-- `DEFAULT_AGENT_CONFIG` (`src/lib/review-modes.ts`): all four agents,
no confidence pass. -/
structure AgentConfig where
  enabledAgents : List ReviewAgent
  includeConfidence : Bool
deriving DecidableEq, Repr

def DEFAULT_AGENT_CONFIG : AgentConfig :=
  ⟨[.bugDetector, .securityAuditor, .performanceOptimizer,
    .refactoringArchitect], false⟩

/-- An `AgentRunRequest` body (already JSON-decoded; absent fields are
`none`). -/
structure AgentRunRequest where
  repo : String
  branch : String
  systemPrompt : String
  userMessage : String
  scope : Option String
  models : List ProviderId
  selectedModels : ModelSelection
  agentConfig : Option AgentConfig
deriving DecidableEq, Repr

/-- One specialist result (`AgentResult`). -/
structure AgentResult where
  agent : ReviewAgent
  output : String
  provider : ProviderId
  modelId : String
deriving DecidableEq, Repr

/-- The confidence JSON object as far as the route reads it
(`parsed.score`, `parsed.breakdown?.{understanding,solution,sideEffects}`,
`parsed.recommendation`); numeric JSON fields are modelled as integers and
a missing field (or missing `breakdown`) as `none`. -/
structure ParsedConfidence where
  score : Option Int
  understanding : Option Int
  solution : Option Int
  sideEffects : Option Int
  recommendation : Option String
deriving DecidableEq, Repr

/-- The clamped confidence block the route returns. -/
structure ConfidenceReport where
  score : Int
  understanding : Int
  solution : Int
  sideEffects : Int
  recommendation : String
deriving DecidableEq, Repr

/-- JavaScript `x || 0` on an optional number (`0` is falsy, so both
`none` and `some 0` give `0`). -/
def jsOrZero : Option Int → Int
  | none => 0
  | some n => n

/-- `Math.max(0, Math.min(100, x))`. -/
def clamp100 (x : Int) : Int := max 0 (min 100 x)

/-- Is an optional string truthy (`present and non-empty`)? -/
def jsTruthyStr : Option String → Bool
  | none => false
  | some s => !(s = "")

/-- The confidence construction of the route: given the outcome of the
brace extraction and `JSON.parse` (`none` when no `{...}` match or the
parse threw), build the clamped block; omitted unless `score` is present
and `recommendation` truthy; every numeric field clamped into `[0, 100]`;
a recommendation outside `{proceed, ask, stop}` coerced to `"ask"`. -/
def buildConfidence (parsed : Option ParsedConfidence) : Option ConfidenceReport :=
  match parsed with
  | none => none
  | some p =>
    if p.score.isSome && jsTruthyStr p.recommendation then
      some { score := clamp100 (jsOrZero p.score),
             understanding := clamp100 (jsOrZero p.understanding),
             solution := clamp100 (jsOrZero p.solution),
             sideEffects := clamp100 (jsOrZero p.sideEffects),
             recommendation :=
               if ["proceed", "ask", "stop"].contains (p.recommendation.getD "")
               then p.recommendation.getD "" else "ask" }
    else none

/-- Outcomes of the agent route's outbound calls.  `tree` is
`fetchRepoTree` (a throw propagates to the route's catch-all);
`commitFiles n` the result of `fetchCommitFiles` for `n` commits (that
helper catches its own errors and returns `[]`); `fetchFile` the per-file
content fetch (`none` models a throw, swallowed per file); `agentCall` the
specialist provider call for `(agent, provider, modelId)`; `synthesize`
the synthesis call; `confidenceParsed` the combined outcome of the
confidence call, the `{...}` regex match and `JSON.parse`
(`.error` = the call or parse threw, `.ok none` = no match or missing
fields upstream). -/
structure AgentOracles where
  tree : Except String (List TreeItem)
  commitFiles : Nat → List String
  fetchFile : String → Option String
  agentCall : ReviewAgent → ProviderId → String → Except String String
  synthesize : Except String String
  confidenceParsed : Except String (Option ParsedConfidence)

/-- `resolveFilesFromScope(sessionToken, owner, repo, branch, scope)`. -/
def resolveFilesFromScope (o : AgentOracles) (scope : ParsedScope) :
    Except String (List String) :=
  match scope.type with
  | .file => .ok [scope.value]
  | .glob => do
    let tree ← o.tree
    let blobs := tree.filter (fun t => t.type = "blob")
    .ok ((blobs.map (fun b => b.path)).filter
      (fun path => matchesGlob path scope.value))
  | .commits =>
    match scope.commitCount with
    | some n => .ok (o.commitFiles n)
    | none => .ok []
  | .empty => .ok (o.commitFiles 1)
  | .invalid => .ok []

/-- The agent route's `fetchFilesWithConcurrency`: batched like the bounded
loader, but files are only dropped (fetch error, or empty content — which
is how the route's fetcher marks oversized files); there is no in-loop
budget. -/
def fetchFilesWithConcurrency (fetch : String → Option String)
    (paths : List String) (concurrency : Nat := 4) : List FileWithContent :=
  (chunksOf concurrency paths).flatMap
    (fun batch => batch.filterMap (fun p =>
      match fetch p with
      | none => none
      | some c => if c.length > 0 then some ⟨p, c⟩ else none))

/-- The route's total-character loop: keep fetched files in order until one
would push the running total past `MAX_TOTAL_CHARS`, then `break` (no
prefix is kept here, unlike the standard loader). -/
def applyTotalLimit : List FileWithContent → Nat → List FileWithContent
  | [], _ => []
  | f :: rest, total =>
    if MAX_TOTAL_CHARS < total + f.content.length then []
    else f :: applyTotalLimit rest (total + f.content.length)

/-- The complete loading step of the agent route: take the first 25
resolved paths, fetch them in batches of 4 through a fetcher that maps an
oversized raw file to `""` (then dropped), and apply the total budget. -/
def agentLoadFiles (fetchFile : String → Option String) (paths : List String) :
    List FileWithContent :=
  applyTotalLimit
    (fetchFilesWithConcurrency
      (fun p =>
        match fetchFile p with
        | none => none
        | some c => some (if MAX_FILE_CHARS < c.length then "" else c))
      (paths.take 25) 4)
    0

/-- The `Promise.all(enabledAgents.map(...))` fan-out: role at index `i`
uses provider `models[i % models.length]`, resolved fresh; any failure
aborts the batch. -/
def runAgentCalls (call : ReviewAgent → ProviderId → String → Except String String)
    (models : List ProviderId) (selectedModels : ModelSelection) :
    Nat → List ReviewAgent → Except String (List AgentResult)
  | _, [] => .ok []
  | i, agent :: rest => do
    let provider := (models.get? (i % models.length)).getD .openai
    let modelId := resolveModelForProvider provider selectedModels none
    let output ← call agent provider modelId
    let tail ← runAgentCalls call models selectedModels (i + 1) rest
    .ok (⟨agent, output, provider, modelId⟩ :: tail)

/-- `AgentRunResponse.meta`. -/
structure AgentRunMeta where
  repo : String
  branch : String
  scope : ParsedScope
  scopeDescription : String
  selectedFiles : List String
  agents : List ReviewAgent
deriving DecidableEq, Repr

/-- `AgentRunResponse`. -/
structure AgentRunResponse where
  results : List AgentResult
  synthesized : String
  meta : AgentRunMeta
  confidence : Option ConfidenceReport
deriving DecidableEq, Repr

/-- The observable outcome of the agent route: a rejection with an HTTP
status and message, or the JSON success body.  (`rateLimited` exists so
that admission behaviour can be compared with the pipeline route; the
agent route never produces it.) -/
inductive AgentRouteResponse where
  | rateLimited (retryAfter : Nat)
  | reject (status : Nat) (msg : String)
  | ok (body : AgentRunResponse)
deriving DecidableEq, Repr

/-- The `POST` handler of the agent review route, for an authenticated
caller.  `now`/`limits` are the caller-keyed rate limiter state that the
pipeline route consults; this route contains no `checkRateLimit` call, so
they are unused.  Validation, scope parsing, file resolution and the
loading caps all run before any provider call; `filePaths.length === 0`
and `files.length === 0` are explicit 400 rejections. -/
def agentRoutePOST (now : Int) (limits : List Int) (req : AgentRunRequest)
    (o : AgentOracles) : AgentRouteResponse :=
  if req.repo = "" ∨ req.branch = "" ∨ req.systemPrompt = "" ∨
      req.userMessage = "" ∨ req.models = [] then
    .reject 400 "Invalid request"
  else
    let parts := splitOnChar '/' req.repo.data
    if (parts.get? 0).getD [] = [] ∨ (parts.get? 1).getD [] = [] then
      .reject 400 "Invalid repo"
    else
      let parsedScope := parseScope req.scope
      if parsedScope.type = .invalid then
        .reject 400 ("Invalid scope: " ++ parsedScope.value ++
          ". Use a file path, glob pattern, commit count, or leave empty.")
      else
        match resolveFilesFromScope o parsedScope with
        | .error msg => .reject 500 msg
        | .ok filePaths =>
          if filePaths = [] then
            .reject 400 ("No files found for scope: " ++
              getScopeDescription parsedScope)
          else
            let files := agentLoadFiles o.fetchFile filePaths
            if files = [] then
              .reject 400 "Found file paths but could not load contents within caps."
            else
              let config := req.agentConfig.getD DEFAULT_AGENT_CONFIG
              let enabledAgents :=
                if 0 < config.enabledAgents.length then config.enabledAgents
                else DEFAULT_AGENT_CONFIG.enabledAgents
              if enabledAgents = [] then
                .reject 400 "At least one agent must be enabled. Configure agents in Settings."
              else
                match runAgentCalls o.agentCall req.models req.selectedModels 0
                    enabledAgents with
                | .error msg => .reject 500 msg
                | .ok agentResults =>
                  match o.synthesize with
                  | .error msg => .reject 500 msg
                  | .ok synthesized =>
                    let confidence :=
                      if config.includeConfidence then
                        match o.confidenceParsed with
                        | .error _ => none
                        | .ok parsed => buildConfidence parsed
                      else none
                    .ok { results := agentResults, synthesized,
                          meta := { repo := req.repo, branch := req.branch,
                                    scope := parsedScope,
                                    scopeDescription :=
                                      getScopeDescription parsedScope,
                                    selectedFiles :=
                                      files.map (fun f => f.path),
                                    agents := enabledAgents },
                          confidence }

/-! ## Theorems -/

/-- C1, counterexample: `validateModelId("openai", "gpt-banana")` returns
`"gpt-banana"`, which is neither in the openai allowlist nor the openai
default (`"gpt-4"`): the openai branch passes any `gpt-`/`o1-`-prefixed id
through to the API unchanged. -/
theorem claim_C1_counterexample :
    validateModelId .openai (some "gpt-banana") = "gpt-banana" ∧
    OPENAI_CHAT_MODELS.contains "gpt-banana" = false ∧
    "gpt-banana" ≠ DEFAULT_OPENAI_MODEL := by
  decide

/-- No known completion-model prefix can prefix a `gpt-`/`o1-`-prefixed
id, so the passthrough branch of `validateModelId` is always reached for
such ids. -/
theorem completion_prefix_false (s : String)
    (hg : jsStartsWith s "gpt-" = true ∨ jsStartsWith s "o1-" = true) :
    completionModelPrefixes.any (fun p => jsStartsWith s p) = false := by
  rw [Bool.eq_false_iff]
  intro hany
  rw [List.any_eq_true] at hany
  obtain ⟨p, hp, hpre⟩ := hany
  have hpre2 : p.data <+: s.data := List.isPrefixOf_iff_prefix.mp hpre
  rcases hg with hg | hg <;>
  · have hg2 := List.isPrefixOf_iff_prefix.mp hg
    fin_cases hp <;>
      rcases List.prefix_or_prefix_of_prefix hpre2 hg2 with h | h <;>
        revert h <;> decide

/-- C1 (amended): an empty/absent request yields the provider default; every
anthropic result is the default or an allowlist member; an openai result is
the default or the requested id itself, the latter only when the id is
allowlisted or carries a `gpt-`/`o1-` prefix; every `gpt-`/`o1-`-prefixed
requested id is passed through unchanged; google passes any non-empty
requested id through unchanged. -/
theorem claim_C1_amended :
    (∀ p : ProviderId, validateModelId p none = getDefaultModel p ∧
      validateModelId p (some "") = getDefaultModel p) ∧
    (∀ m : Option String,
      validateModelId .anthropic m = DEFAULT_ANTHROPIC_MODEL ∨
      ANTHROPIC_MODELS.contains (validateModelId .anthropic m) = true) ∧
    (∀ s : String,
      validateModelId .openai (some s) = DEFAULT_OPENAI_MODEL ∨
      (validateModelId .openai (some s) = s ∧
        (OPENAI_CHAT_MODELS.contains s = true ∨
          jsStartsWith s "gpt-" = true ∨ jsStartsWith s "o1-" = true))) ∧
    (∀ s : String,
      (jsStartsWith s "gpt-" = true ∨ jsStartsWith s "o1-" = true) →
      validateModelId .openai (some s) = s) ∧
    (∀ s : String, validateModelId .google (some s) = s ∨ s = "") := by
  refine ⟨?_, ?_, ?_, ?_, ?_⟩
  · intro p
    cases p <;> exact ⟨rfl, rfl⟩
  · intro m
    match m with
    | none => exact .inl rfl
    | some s =>
      simp only [validateModelId]
      split_ifs with h0 h1
      · exact .inl rfl
      · exact .inr h1
      · exact .inl rfl
  · intro s
    simp only [validateModelId]
    split_ifs with h0 h1 h2 h3
    · exact .inl rfl
    · exact .inr ⟨rfl, .inl h1⟩
    · exact .inl rfl
    · rcases Bool.or_eq_true_iff.mp h3 with h | h
      · exact .inr ⟨rfl, .inr (.inl h)⟩
      · exact .inr ⟨rfl, .inr (.inr h)⟩
    · exact .inl rfl
  · intro s hg
    have hne : s ≠ "" := by
      rintro rfl
      rcases hg with hg | hg <;> exact absurd hg (by decide)
    simp only [validateModelId]
    rw [if_neg hne]
    by_cases hin : OPENAI_CHAT_MODELS.contains s = true
    · rw [if_pos hin]
    · rw [if_neg hin, if_neg (by simp [completion_prefix_false s hg]),
        if_pos (by rcases hg with h | h <;> simp [h])]
  · intro s
    simp only [validateModelId]
    split_ifs with h0
    · exact .inr h0
    · exact .inl rfl

/-- C1 witness: the passthrough clause at a concrete non-allowlisted
`o1-`-prefixed id. -/
theorem claim_C1_witness :
    validateModelId .openai (some "o1-custom-build") = "o1-custom-build" :=
  claim_C1_amended.2.2.2.1 "o1-custom-build" (.inr (by decide))

/-- Helper for C7: `runModelCalls` succeeds with one result per provider,
in input order. -/
theorem runModelCalls_ok_order
    (call : ProviderId → String → String → String → Except String String)
    (systemPrompt finalUserPrompt : String) (selectedModels : ModelSelection) :
    ∀ (models : List ProviderId) (results : List ModelResult),
      runModelCalls call systemPrompt finalUserPrompt selectedModels models =
        .ok results →
      results.length = models.length ∧
      ∀ i (hi : i < results.length) (hm : i < models.length),
        (results.get ⟨i, hi⟩).model = models.get ⟨i, hm⟩ := by
  intro models
  induction models with
  | nil =>
    intro results h
    simp only [runModelCalls, Except.ok.injEq] at h
    subst h
    exact ⟨rfl, fun i hi hm => absurd hi (by simp)⟩
  | cons m rest ih =>
    intro results h
    simp only [runModelCalls, bind, Except.bind] at h
    cases hc : call m systemPrompt finalUserPrompt
        (resolveModelForProvider m selectedModels none) with
    | error e => rw [hc] at h; exact absurd h (by simp)
    | ok output =>
      rw [hc] at h
      cases hr : runModelCalls call systemPrompt finalUserPrompt selectedModels
          rest with
      | error e => rw [hr] at h; exact absurd h (by simp)
      | ok tail =>
        rw [hr] at h
        simp only [Except.ok.injEq] at h
        subst h
        obtain ⟨hlen, hidx⟩ := ih tail hr
        refine ⟨by simp [hlen], ?_⟩
        intro i hi hm
        match i with
        | 0 => rfl
        | i + 1 =>
          exact hidx i (by simpa using hi) (by simpa using hm)

/-- C7: the multi-provider model runner returns exactly one result per
input provider and in the same order as the input provider list (the
`Promise.all` over `models.map` correlates outputs to input positions, so
completion order cannot reorder results). -/
theorem claim_C7_runModels_order
    (call : ProviderId → String → String → String → Except String String)
    (models : List ProviderId) (systemPrompt improvedUserPrompt : String)
    (files : List FileWithContent) (selectedModels : ModelSelection)
    (results : List ModelResult)
    (h : runModels call models systemPrompt improvedUserPrompt files
      selectedModels = .ok results) :
    results.length = models.length ∧
    ∀ i (hi : i < results.length) (hm : i < models.length),
      (results.get ⟨i, hi⟩).model = models.get ⟨i, hm⟩ :=
  runModelCalls_ok_order call systemPrompt
    (improvedUserPrompt ++ "\n\n" ++ buildContext files) selectedModels models
    results h

/-- Concrete inputs for the C7 witness. -/
def c7Call : ProviderId → String → String → String → Except String String :=
  fun _ _ _ _ => .ok "out"

def c7Models : List ProviderId := [.openai, .google]

def c7Results : List ModelResult := [⟨.openai, "out"⟩, ⟨.google, "out"⟩]

/-- C7 witness: the runner on `[openai, google]` yields two results whose
providers are `openai` then `google`. -/
theorem claim_C7_witness :
    c7Results.length = c7Models.length ∧
    (c7Results.get ⟨0, by decide⟩).model = c7Models.get ⟨0, by decide⟩ ∧
    (c7Results.get ⟨1, by decide⟩).model = c7Models.get ⟨1, by decide⟩ := by
  have h : runModels c7Call c7Models "sys" "goal" [] ⟨none, none, none⟩ =
      .ok c7Results := rfl
  have hmain := claim_C7_runModels_order c7Call c7Models "sys" "goal" []
    ⟨none, none, none⟩ c7Results h
  exact ⟨hmain.1, hmain.2 0 (by decide) (by decide),
    hmain.2 1 (by decide) (by decide)⟩

/-- Concrete agent-mode request for the C9 route-level clause: a valid
scope, one provider, one enabled agent, confidence requested. -/
def c9Req : AgentRunRequest :=
  ⟨"o/r", "main", "sys", "goal", some "src/a.ts", [.openai],
    ⟨none, none, none⟩, some ⟨[.bugDetector], true⟩⟩

/-- Oracles for the C9 route-level clause, with the confidence-call outcome
left free. -/
def c9Oracles (attempt : Except String (Option ParsedConfidence)) : AgentOracles :=
  ⟨.ok [], fun _ => [], fun _ => some "hello", fun _ _ _ => .ok "out",
    .ok "synth", attempt⟩

/-- C9: whenever the confidence block is present, its score and every
breakdown field lie in `[0, 100]` and its recommendation is `proceed`,
`ask` or `stop`; the claim's concrete input (score 150, understanding -5,
recommendation "maybe") clamps to (100, 0, "ask"); a missing score or
recommendation (or an unparseable reply) omits the block; and on the
concrete request the route succeeds for every outcome of the confidence
call, carrying exactly the built block. -/
theorem claim_C9_confidence :
    (∀ (p : Option ParsedConfidence) (c : ConfidenceReport),
      buildConfidence p = some c →
      (0 ≤ c.score ∧ c.score ≤ 100) ∧
      (0 ≤ c.understanding ∧ c.understanding ≤ 100) ∧
      (0 ≤ c.solution ∧ c.solution ≤ 100) ∧
      (0 ≤ c.sideEffects ∧ c.sideEffects ≤ 100) ∧
      (c.recommendation = "proceed" ∨ c.recommendation = "ask" ∨
        c.recommendation = "stop")) ∧
    buildConfidence (some ⟨some 150, some (-5), some 42, some 7, some "maybe"⟩) =
      some ⟨100, 0, 42, 7, "ask"⟩ ∧
    (∀ p : ParsedConfidence, p.score = none ∨ p.recommendation = none →
      buildConfidence (some p) = none) ∧
    buildConfidence none = none ∧
    (∀ attempt : Except String (Option ParsedConfidence),
      ∃ body, agentRoutePOST 0 [] c9Req (c9Oracles attempt) = .ok body ∧
        body.confidence =
          (match attempt with
            | .error _ => none
            | .ok parsed => buildConfidence parsed)) := by
  have hclamp : ∀ x : Int, 0 ≤ clamp100 x ∧ clamp100 x ≤ 100 := by
    intro x
    exact ⟨le_max_left 0 _, max_le (by norm_num) (min_le_left _ _)⟩
  refine ⟨?_, by decide, ?_, rfl, ?_⟩
  · intro p c h
    match p with
    | none => exact absurd h (by simp [buildConfidence])
    | some q =>
      simp only [buildConfidence] at h
      split_ifs at h with hcond hrec
      · simp only [Option.some.injEq] at h
        subst h
        refine ⟨hclamp _, hclamp _, hclamp _, hclamp _, ?_⟩
        simpa using hrec
      · simp only [Option.some.injEq] at h
        subst h
        exact ⟨hclamp _, hclamp _, hclamp _, hclamp _, .inr (.inl rfl)⟩
  · intro p hp
    simp only [buildConfidence]
    rcases hp with hp | hp <;> simp [hp, jsTruthyStr]
  · intro attempt
    exact ⟨_, rfl, rfl⟩

/-- C9 witness: the theorem applied to the claim's concrete clamp input, to
a score-less record, and to a no-match confidence outcome on the concrete
request. -/
theorem claim_C9_witness :
    ((0 : Int) ≤ (100 : Int) ∧ (100 : Int) ≤ 100) ∧
    (("ask" : String) = "proceed" ∨ ("ask" : String) = "ask" ∨
      ("ask" : String) = "stop") ∧
    buildConfidence (some ⟨none, some 1, none, none, some "proceed"⟩) = none ∧
    (∃ body, agentRoutePOST 0 [] c9Req (c9Oracles (.ok none)) = .ok body ∧
      body.confidence = none) := by
  have h1 := claim_C9_confidence.1
    (some ⟨some 150, some (-5), some 42, some 7, some "maybe"⟩)
    ⟨100, 0, 42, 7, "ask"⟩ (by decide)
  have h3 := claim_C9_confidence.2.2.1
    ⟨none, some 1, none, none, some "proceed"⟩ (.inl rfl)
  obtain ⟨body, hb, hc⟩ := claim_C9_confidence.2.2.2.2 (.ok none)
  exact ⟨h1.1, h1.2.2.2.2, h3, body, hb, hc⟩

/-! ### Loader invariants (C3, C6) -/

/-- Total content length of a loaded file list. -/
def sumLen (l : List FileWithContent) : Nat :=
  (l.map (fun f => f.content.length)).sum

theorem sumLen_append (a b : List FileWithContent) :
    sumLen (a ++ b) = sumLen a + sumLen b := by
  simp [sumLen]

theorem sumLen_singleton (f : FileWithContent) :
    sumLen [f] = f.content.length := by
  simp [sumLen]

/-- Sanitized content never exceeds the length cap. -/
theorem sanitizeFileContent_length_le (clean : String → String) (c : String)
    (n : Nat) : (sanitizeFileContent clean c n).length ≤ n := by
  unfold sanitizeFileContent
  split
  · simp [String.length]
  · show ((clean c).data.take n).length ≤ n
    simp

/-- Every file kept by a batch fetch respects the per-file cap. -/
theorem fetchOne_content_le (clean : String → String)
    (fetchRes : String → Option String) (path : String) (f : FileWithContent)
    (h : fetchOne clean fetchRes path = some f) :
    f.content.length ≤ MAX_FILE_CHARS := by
  unfold fetchOne at h
  cases hp : fetchRes path with
  | none => rw [hp] at h; exact absurd h (by simp)
  | some content =>
    rw [hp] at h
    have h2 : (if MAX_FILE_CHARS < content.length then
        (none : Option FileWithContent)
      else some ⟨path, sanitizeFileContent clean content MAX_FILE_CHARS⟩) =
        some f := h
    by_cases hbig : MAX_FILE_CHARS < content.length
    · rw [if_pos hbig] at h2
      exact absurd h2 (by simp)
    · rw [if_neg hbig] at h2
      simp only [Option.some.injEq] at h2
      subst h2
      exact sanitizeFileContent_length_le clean content MAX_FILE_CHARS

/-- The batch accumulation loop preserves the loader invariant: the result
total never exceeds the budget, every kept file respects the per-file cap,
and absent an early return the running total equals the kept sum. -/
theorem addBatch_invariant :
    ∀ (kept results : List FileWithContent) (total : Nat),
      sumLen results = total → total ≤ MAX_TOTAL_CHARS →
      (∀ f ∈ results, f.content.length ≤ MAX_FILE_CHARS) →
      (∀ f ∈ kept, f.content.length ≤ MAX_FILE_CHARS) →
      sumLen (addBatch kept results total).1 ≤ MAX_TOTAL_CHARS ∧
      (∀ f ∈ (addBatch kept results total).1,
        f.content.length ≤ MAX_FILE_CHARS) ∧
      ((addBatch kept results total).2.2 = false →
        sumLen (addBatch kept results total).1 = (addBatch kept results total).2.1 ∧
        (addBatch kept results total).2.1 ≤ MAX_TOTAL_CHARS) := by
  intro kept
  induction kept with
  | nil =>
    intro results total hsum htot hcapR _
    exact ⟨hsum ▸ htot, hcapR, fun _ => ⟨hsum, htot⟩⟩
  | cons f rest ih =>
    intro results total hsum htot hcapR hcapK
    by_cases hover : MAX_TOTAL_CHARS < total + f.content.length
    · by_cases hrem : 1000 < MAX_TOTAL_CHARS - total
      · have heq : addBatch (f :: rest) results total =
            (results ++ [⟨f.path,
              String.mk (f.content.data.take (MAX_TOTAL_CHARS - total))⟩],
              total, true) := by
          simp only [addBatch]
          rw [if_pos hover, if_pos hrem]
        rw [heq]
        set tf : FileWithContent :=
          ⟨f.path, String.mk (f.content.data.take (MAX_TOTAL_CHARS - total))⟩
          with htf
        have hlen : tf.content.length ≤ MAX_TOTAL_CHARS - total := by
          show (f.content.data.take (MAX_TOTAL_CHARS - total)).length ≤ _
          rw [List.length_take]
          exact min_le_left _ _
        have hlef : tf.content.length ≤ f.content.length := by
          show (f.content.data.take (MAX_TOTAL_CHARS - total)).length ≤
            f.content.data.length
          rw [List.length_take]
          exact min_le_right _ _
        refine ⟨?_, ?_, fun hfalse => by simp at hfalse⟩
        · rw [sumLen_append, sumLen_singleton, hsum]
          omega
        · intro g hg
          rcases List.mem_append.mp hg with hg | hg
          · exact hcapR g hg
          · rw [List.mem_singleton.mp hg]
            exact le_trans hlef (hcapK f (List.mem_cons_self f rest))
      · have heq : addBatch (f :: rest) results total = (results, total, true) := by
          simp only [addBatch]
          rw [if_pos hover, if_neg hrem]
        rw [heq]
        exact ⟨hsum ▸ htot, hcapR, fun hfalse => by simp at hfalse⟩
    · have heq : addBatch (f :: rest) results total =
          addBatch rest (results ++ [f]) (total + f.content.length) := by
        simp only [addBatch]
        rw [if_neg hover]
      rw [heq]
      refine ih (results ++ [f]) (total + f.content.length) ?_ (by omega) ?_ ?_
      · rw [sumLen_append, sumLen_singleton, hsum]
      · intro g hg
        rcases List.mem_append.mp hg with hg | hg
        · exact hcapR g hg
        · rw [List.mem_singleton.mp hg]
          exact hcapK f (List.mem_cons_self f rest)
      · intro g hg
        exact hcapK g (List.mem_cons_of_mem f hg)

/-- The outer batch loop preserves the loader invariant. -/
theorem loaderLoop_invariant (clean : String → String)
    (fetchRes : String → Option String) :
    ∀ (batches : List (List String)) (results : List FileWithContent)
      (total : Nat),
      sumLen results = total → total ≤ MAX_TOTAL_CHARS →
      (∀ f ∈ results, f.content.length ≤ MAX_FILE_CHARS) →
      sumLen (loaderLoop clean fetchRes batches results total) ≤
        MAX_TOTAL_CHARS ∧
      ∀ f ∈ loaderLoop clean fetchRes batches results total,
        f.content.length ≤ MAX_FILE_CHARS := by
  intro batches
  induction batches with
  | nil =>
    intro results total hsum htot hcap
    exact ⟨hsum ▸ htot, hcap⟩
  | cons batch more ih =>
    intro results total hsum htot hcap
    by_cases hstop : MAX_TOTAL_CHARS ≤ total
    · have heq : loaderLoop clean fetchRes (batch :: more) results total =
          results := by
        simp only [loaderLoop]
        rw [if_pos hstop]
      rw [heq]
      exact ⟨hsum ▸ htot, hcap⟩
    · have hkept : ∀ f ∈ batch.filterMap (fetchOne clean fetchRes),
          f.content.length ≤ MAX_FILE_CHARS := by
        intro f hf
        rcases List.mem_filterMap.mp hf with ⟨p, _, hp⟩
        exact fetchOne_content_le clean fetchRes p f hp
      have hinv := addBatch_invariant (batch.filterMap (fetchOne clean fetchRes))
        results total hsum htot hcap hkept
      have heq : loaderLoop clean fetchRes (batch :: more) results total =
          (match addBatch (batch.filterMap (fetchOne clean fetchRes))
              results total with
            | (results2, _, true) => results2
            | (results2, total2, false) =>
              loaderLoop clean fetchRes more results2 total2) := by
        simp only [loaderLoop]
        rw [if_neg hstop]
      rw [heq]
      rcases hab : addBatch (batch.filterMap (fetchOne clean fetchRes))
          results total with ⟨results2, total2, early⟩
      rw [hab] at hinv
      cases early with
      | true => exact ⟨hinv.1, hinv.2.1⟩
      | false =>
        obtain ⟨hsum2, htot2⟩ := hinv.2.2 rfl
        exact ih results2 total2 hsum2 htot2 hinv.2.1

/-- C3: for every fetch behaviour, sanitizer pass, path list and batch
size, the bounded loader's output satisfies the loader invariant — the sum
of the returned content lengths is at most the 220,000-character total
budget, and every returned file's content length is at most the
30,000-character per-file cap. -/
theorem claim_C3_loader_invariant (clean : String → String)
    (fetchRes : String → Option String) (paths : List String)
    (concurrency : Nat) :
    sumLen (fetchFilesWithEarlyTermination clean fetchRes paths concurrency) ≤
      MAX_TOTAL_CHARS ∧
    ∀ f ∈ fetchFilesWithEarlyTermination clean fetchRes paths concurrency,
      f.content.length ≤ MAX_FILE_CHARS := by
  unfold fetchFilesWithEarlyTermination
  exact loaderLoop_invariant clean fetchRes (chunksOf concurrency paths) [] 0
    rfl (by norm_num [MAX_TOTAL_CHARS]) (by simp)

/-- C3 witness: the invariant instantiated at a concrete two-file load. -/
theorem claim_C3_witness :
    sumLen (fetchFilesWithEarlyTermination id (fun _ => some "xyz")
      ["a", "b"] 4) ≤ MAX_TOTAL_CHARS ∧
    (⟨"a", "xyz"⟩ : FileWithContent).content.length ≤ MAX_FILE_CHARS := by
  have h := claim_C3_loader_invariant id (fun _ => some "xyz") ["a", "b"] 4
  refine ⟨h.1, h.2 ⟨"a", "xyz"⟩ ?_⟩
  decide

/-- C6: at the budget boundary the loader behaves exactly as specified —
when a kept file would push the running total over the budget, a prefix of
exactly the remaining budget is kept iff that remainder exceeds 1000
characters, and in either case processing stops (the rest of the batch and,
via the loop clause, all further batches are dropped); a file that fits is
added whole and processing continues. -/
theorem claim_C6_budget_boundary :
    (∀ (f : FileWithContent) (rest results : List FileWithContent)
      (total : Nat), total ≤ MAX_TOTAL_CHARS →
      (MAX_TOTAL_CHARS < total + f.content.length →
        (1000 < MAX_TOTAL_CHARS - total →
          addBatch (f :: rest) results total =
            (results ++ [⟨f.path, String.mk
              (f.content.data.take (MAX_TOTAL_CHARS - total))⟩], total, true) ∧
          (String.mk (f.content.data.take
            (MAX_TOTAL_CHARS - total))).length = MAX_TOTAL_CHARS - total) ∧
        (MAX_TOTAL_CHARS - total ≤ 1000 →
          addBatch (f :: rest) results total = (results, total, true))) ∧
      (total + f.content.length ≤ MAX_TOTAL_CHARS →
        addBatch (f :: rest) results total =
          addBatch rest (results ++ [f]) (total + f.content.length))) ∧
    (∀ (clean : String → String) (fetchRes : String → Option String)
      (batch : List String) (more : List (List String))
      (results : List FileWithContent) (total : Nat),
      total < MAX_TOTAL_CHARS →
      (addBatch (batch.filterMap (fetchOne clean fetchRes)) results total).2.2 =
        true →
      loaderLoop clean fetchRes (batch :: more) results total =
        (addBatch (batch.filterMap (fetchOne clean fetchRes)) results total).1) := by
  constructor
  · intro f rest results total htot
    refine ⟨fun hover => ⟨fun hrem => ⟨?_, ?_⟩, fun hrem => ?_⟩, fun hfit => ?_⟩
    · simp only [addBatch]
      rw [if_pos hover, if_pos hrem]
    · show (f.content.data.take (MAX_TOTAL_CHARS - total)).length = _
      rw [List.length_take]
      have : MAX_TOTAL_CHARS - total ≤ f.content.data.length := by
        show MAX_TOTAL_CHARS - total ≤ f.content.length
        omega
      omega
    · simp only [addBatch]
      rw [if_pos hover, if_neg (by omega : ¬1000 < MAX_TOTAL_CHARS - total)]
    · simp only [addBatch]
      rw [if_neg (by omega : ¬MAX_TOTAL_CHARS < total + f.content.length)]
  · intro clean fetchRes batch more results total hlt hearly
    simp only [loaderLoop]
    rw [if_neg (not_le.mpr hlt)]
    rcases hab : addBatch (batch.filterMap (fetchOne clean fetchRes))
        results total with ⟨results2, total2, early⟩
    rw [hab] at hearly
    cases early with
    | true => rfl
    | false => exact absurd hearly (by simp)

/-- C6 witness: concrete boundary instances — remaining budget 1
(≤ 1000: stop without a prefix) and a fitting 3-character file
(added whole, loop continues). -/
theorem claim_C6_witness :
    addBatch [⟨"p", "abc"⟩] [] 219999 = ([], 219999, true) ∧
    addBatch [⟨"p", "abc"⟩] [] 0 = addBatch [] [⟨"p", "abc"⟩] 3 := by
  constructor
  · exact ((claim_C6_budget_boundary.1 ⟨"p", "abc"⟩ [] [] 219999
      (by decide)).1 (by decide)).2 (by decide)
  · exact (claim_C6_budget_boundary.1 ⟨"p", "abc"⟩ [] [] 0
      (by decide)).2 (by decide)

/-! ### Glob matching (C10) -/

/-- More fuel never turns a successful prefix match into a failure. -/
theorem matchPrefixAux_mono :
    ∀ (f f2 : Nat) (ts : List GTok) (cs : List Char), f ≤ f2 →
      matchPrefixAux f ts cs = true → matchPrefixAux f2 ts cs = true := by
  intro f
  induction f with
  | zero => intro f2 ts cs _ h; exact absurd h (by simp [matchPrefixAux])
  | succ f ih =>
    intro f2 ts cs hle h
    obtain ⟨f3, rfl⟩ : ∃ f3, f2 = f3 + 1 := ⟨f2 - 1, by omega⟩
    have hle2 : f ≤ f3 := by omega
    match ts, cs with
    | [], _ => simp [matchPrefixAux]
    | .lit c :: ts, [] => exact absurd h (by simp [matchPrefixAux])
    | .qmark :: ts, [] => exact absurd h (by simp [matchPrefixAux])
    | .lit c :: ts, x :: cs =>
      simp only [matchPrefixAux, Bool.and_eq_true] at h ⊢
      exact ⟨h.1, ih f3 ts cs hle2 h.2⟩
    | .qmark :: ts, x :: cs =>
      simp only [matchPrefixAux, Bool.and_eq_true] at h ⊢
      exact ⟨h.1, ih f3 ts cs hle2 h.2⟩
    | .star :: ts, [] =>
      simp only [matchPrefixAux] at h ⊢
      exact ih f3 ts [] hle2 h
    | .star :: ts, x :: cs =>
      simp only [matchPrefixAux, Bool.or_eq_true, Bool.and_eq_true] at h ⊢
      rcases h with h | ⟨h1, h2⟩
      · exact .inl (ih f3 ts (x :: cs) hle2 h)
      · exact .inr ⟨h1, ih f3 (.star :: ts) cs hle2 h2⟩
    | .dstar :: ts, [] =>
      simp only [matchPrefixAux] at h ⊢
      exact ih f3 ts [] hle2 h
    | .dstar :: ts, x :: cs =>
      simp only [matchPrefixAux, Bool.or_eq_true] at h ⊢
      rcases h with h | h
      · exact .inl (ih f3 ts (x :: cs) hle2 h)
      · exact .inr (ih f3 (.dstar :: ts) cs hle2 h)

/-- A successful prefix match survives appending characters to the string
(the compiled regex has no end anchor). -/
theorem matchPrefixAux_append :
    ∀ (f : Nat) (ts : List GTok) (cs ds : List Char),
      matchPrefixAux f ts cs = true → matchPrefixAux f ts (cs ++ ds) = true := by
  intro f
  induction f with
  | zero => intro ts cs ds h; exact absurd h (by simp [matchPrefixAux])
  | succ f ih =>
    intro ts cs ds h
    match ts, cs with
    | [], _ => simp [matchPrefixAux]
    | .lit c :: ts, [] => exact absurd h (by simp [matchPrefixAux])
    | .qmark :: ts, [] => exact absurd h (by simp [matchPrefixAux])
    | .lit c :: ts, x :: cs =>
      simp only [List.cons_append, matchPrefixAux, Bool.and_eq_true] at h ⊢
      exact ⟨h.1, ih ts cs ds h.2⟩
    | .qmark :: ts, x :: cs =>
      simp only [List.cons_append, matchPrefixAux, Bool.and_eq_true] at h ⊢
      exact ⟨h.1, ih ts cs ds h.2⟩
    | .star :: ts, [] =>
      simp only [matchPrefixAux] at h
      rw [List.nil_append]
      cases ds with
      | nil => simpa only [matchPrefixAux] using h
      | cons d ds2 =>
        simp only [matchPrefixAux, Bool.or_eq_true]
        exact .inl (by simpa using ih ts [] (d :: ds2) h)
    | .star :: ts, x :: cs =>
      simp only [List.cons_append, matchPrefixAux, Bool.or_eq_true,
        Bool.and_eq_true] at h ⊢
      rcases h with h | ⟨h1, h2⟩
      · exact .inl (by simpa using ih ts (x :: cs) ds h)
      · exact .inr ⟨h1, ih (.star :: ts) cs ds h2⟩
    | .dstar :: ts, [] =>
      simp only [matchPrefixAux] at h
      rw [List.nil_append]
      cases ds with
      | nil => simpa only [matchPrefixAux] using h
      | cons d ds2 =>
        simp only [matchPrefixAux, Bool.or_eq_true]
        exact .inl (by simpa using ih ts [] (d :: ds2) h)
    | .dstar :: ts, x :: cs =>
      simp only [List.cons_append, matchPrefixAux, Bool.or_eq_true] at h ⊢
      rcases h with h | h
      · exact .inl (by simpa using ih ts (x :: cs) ds h)
      · exact .inr (ih (.dstar :: ts) cs ds h)

/-- `matchPrefix` is stable under appending to the searched string. -/
theorem matchPrefix_append (ts : List GTok) (cs ds : List Char)
    (h : matchPrefix ts cs = true) : matchPrefix ts (cs ++ ds) = true := by
  unfold matchPrefix at h ⊢
  exact matchPrefixAux_mono _ _ ts (cs ++ ds)
    (by simp only [List.length_append]; omega)
    (matchPrefixAux_append _ ts cs ds h)

/-- C10: glob matching is anchored only at the start, never at the end —
whenever `matchesGlob p g` holds, `matchesGlob (p ++ s) g` holds for every
suffix `s`; in particular `matchesGlob "src/a.tsx" "src/*.ts"` is true,
so an extension pattern also matches extensions merely beginning with it. -/
theorem claim_C10_glob_prefix_anchor :
    (∀ (g p s : String), matchesGlob p g = true →
      matchesGlob (p ++ s) g = true) ∧
    matchesGlob "src/a.tsx" "src/*.ts" = true := by
  refine ⟨?_, by decide⟩
  intro g p s h
  by_cases ha : globAnchored (globTokens g.data) = true
  · simp only [matchesGlob, ha, if_true] at h ⊢
    rw [String.data_append]
    exact matchPrefix_append _ _ _ h
  · simp only [matchesGlob, ha, if_false, Bool.false_eq_true] at h ⊢
    rw [List.any_eq_true] at h ⊢
    obtain ⟨i, hi, hm⟩ := h
    refine ⟨i, ?_, ?_⟩
    · rw [List.mem_range] at hi ⊢
      rw [String.data_append, List.length_append]
      omega
    · rw [List.mem_range] at hi
      rw [String.data_append,
        List.drop_append_of_le_length (by omega : i ≤ p.data.length)]
      exact matchPrefix_append _ _ _ hm

/-- C10 witness: the monotonicity applied to the concrete in-claim match,
extending `"src/a.tsx"` by `"x"`. -/
theorem claim_C10_witness :
    matchesGlob ("src/a.tsx" ++ "x") "src/*.ts" = true :=
  claim_C10_glob_prefix_anchor.1 "src/*.ts" "src/a.tsx" "x" (by decide)

/-! ### Rate limiting at the entry points (C2) -/

/-- A limiter state with ten admissions at time 0 (over the limit at
time 0). -/
def c2Limits : List Int := List.replicate 10 0

/-- A well-formed agent request used to drive the route while over the
limit. -/
def c2Req : AgentRunRequest :=
  ⟨"o/r", "main", "sys", "goal", some "src/a.ts", [.openai],
    ⟨none, none, none⟩, none⟩

/-- Oracles under which every stage of the agent route succeeds. -/
def c2Oracles : AgentOracles :=
  ⟨.ok [], fun _ => [], fun _ => some "hello", fun _ _ _ => .ok "out",
    .ok "synth", .ok none⟩

/-- C2, counterexample: with the caller already at ten invocations inside
the 60-second window (so the admission check rejects), the agent-mode
entry point still performs the entire review and returns a success body —
it contains no rate-limit admission check at all, contradicting the claim
that both entry points check before doing any work. -/
theorem claim_C2_counterexample :
    (checkRateLimit c2Limits 0 10 60000).1 = false ∧
    ∃ body, agentRoutePOST 0 c2Limits c2Req c2Oracles = .ok body := by
  exact ⟨by decide, ⟨_, rfl⟩⟩

/-- C2 (amended): only the standard pipeline entry point performs the
rate-limit admission check (at most 10 invocations per 60-second sliding
window, keyed by caller identity).  When the check rejects, the route
returns the retry-after signal (60 seconds) regardless of the request body
and of every downstream oracle — no pipeline work is performed.  The check
rejects whenever ten or more stored timestamps lie inside the window.  The
agent-mode entry point performs no such check (see the counterexample). -/
theorem claim_C2_amended :
    (∀ (now : Int) (limits : List Int)
      (validation : Except String PipelineRunRequest) (o : PipelineOracles),
      (checkRateLimit limits now 10 60000).1 = false →
      pipelineRunPOST now limits validation o = .rateLimited 60) ∧
    (∀ (limits : List Int) (now : Int),
      10 ≤ (limits.filter (fun t => now - t < 60000)).length →
      (checkRateLimit limits now 10 60000).1 = false) := by
  constructor
  · intro now limits validation o h
    simp only [pipelineRunPOST]
    rw [if_pos h]
  · intro limits now h
    simp only [checkRateLimit]
    rw [if_pos h]

/-- Oracles that fail every stage, for the C2 witness (the rejection does
not depend on them). -/
def c2FailOracles : PipelineOracles :=
  ⟨.error "x", .error "x", fun _ => none, id, fun _ _ _ _ => .error "x",
    .error "x"⟩

/-- C2 witness: the amended theorem applied at the over-limit state. -/
theorem claim_C2_witness :
    pipelineRunPOST 0 c2Limits (.error "bad") c2FailOracles =
      .rateLimited 60 :=
  claim_C2_amended.1 0 c2Limits (.error "bad") c2FailOracles (by decide)

/-! ### Empty file sets: warning in the standard pipeline, rejection in
agent mode (C4) -/

/-- C4: an empty candidate/file set is non-fatal in the standard pipeline
but fatal in agent mode.  (1) If the search stage ranks zero candidate
paths and the remaining stages succeed, `executePipeline` completes with
the non-empty `meta.warning` and no file context.  (2) If the search stage
ranks at least one candidate but the bounded loader returns zero files,
the run likewise completes, with the distinct "Could not load any files"
warning.  (3)/(4) In the agent route, a scope resolving to zero files — or
to files none of whose contents load within the caps — yields a 400
rejection with a descriptive message, for every value of the provider-call
oracles (`agentCall`, `synthesize`, `confidenceParsed` are arbitrary),
i.e. before any provider call can influence the outcome. -/
theorem claim_C4_empty_set_asymmetry :
    (∀ (o : PipelineOracles) (req : PipelineRunRequest) (imp : ImproverOutput)
      (tree : List TreeItem) (outs : List ModelResult) (cons : String),
      o.improve = .ok imp → o.tree = .ok tree →
      rankFiles tree imp.keywords imp.maxFiles = [] →
      runModels o.callModel req.models req.systemPrompt imp.improvedUserPrompt
        [] req.selectedModels = .ok outs →
      o.consolidate = .ok cons →
      ∃ r, executePipeline o req = .ok r ∧
        r.meta.warning =
          some "No relevant files found. Running with prompt-only context." ∧
        r.meta.selectedFiles = [] ∧ r.consolidated = cons) ∧
    (∀ (o : PipelineOracles) (req : PipelineRunRequest) (imp : ImproverOutput)
      (tree : List TreeItem) (outs : List ModelResult) (cons : String),
      o.improve = .ok imp → o.tree = .ok tree →
      rankFiles tree imp.keywords imp.maxFiles ≠ [] →
      fetchFilesWithEarlyTermination o.clean o.fetchFile
        (rankFiles tree imp.keywords imp.maxFiles) 4 = [] →
      runModels o.callModel req.models req.systemPrompt imp.improvedUserPrompt
        [] req.selectedModels = .ok outs →
      o.consolidate = .ok cons →
      ∃ r, executePipeline o req = .ok r ∧
        r.meta.warning =
          some "Could not load any files. Running with prompt-only context." ∧
        r.meta.selectedFiles = [] ∧ r.consolidated = cons) ∧
    (∀ (now : Int) (limits : List Int) (req : AgentRunRequest)
      (o : AgentOracles),
      ¬(req.repo = "" ∨ req.branch = "" ∨ req.systemPrompt = "" ∨
        req.userMessage = "" ∨ req.models = []) →
      ¬(((splitOnChar '/' req.repo.data).get? 0).getD [] = [] ∨
        ((splitOnChar '/' req.repo.data).get? 1).getD [] = []) →
      (parseScope req.scope).type ≠ .invalid →
      resolveFilesFromScope o (parseScope req.scope) = .ok [] →
      agentRoutePOST now limits req o =
        .reject 400 ("No files found for scope: " ++
          getScopeDescription (parseScope req.scope))) ∧
    (∀ (now : Int) (limits : List Int) (req : AgentRunRequest)
      (o : AgentOracles) (paths : List String),
      ¬(req.repo = "" ∨ req.branch = "" ∨ req.systemPrompt = "" ∨
        req.userMessage = "" ∨ req.models = []) →
      ¬(((splitOnChar '/' req.repo.data).get? 0).getD [] = [] ∨
        ((splitOnChar '/' req.repo.data).get? 1).getD [] = []) →
      (parseScope req.scope).type ≠ .invalid →
      resolveFilesFromScope o (parseScope req.scope) = .ok paths →
      paths ≠ [] →
      agentLoadFiles o.fetchFile paths = [] →
      agentRoutePOST now limits req o =
        .reject 400 "Found file paths but could not load contents within caps.") := by
  refine ⟨?_, ?_, ?_, ?_⟩
  · intro o req imp tree outs cons himp htree hrank hrun hcons
    have hpipe : executePipeline o req = .ok
        { results := outs, consolidated := cons,
          meta := { repo := req.repo, branch := req.branch,
                    selectedFiles := [], keywords := imp.keywords,
                    warning := some
                      "No relevant files found. Running with prompt-only context." } } := by
      simp only [executePipeline, himp, htree, bind, Except.bind]
      rw [hrank]
      simp only [List.isEmpty_nil, if_true]
      rw [hrun, hcons]
      rfl
    exact ⟨_, hpipe, rfl, rfl, rfl⟩
  · intro o req imp tree outs cons himp htree hrank hload hrun hcons
    have hie : (rankFiles tree imp.keywords imp.maxFiles).isEmpty = false := by
      rw [Bool.eq_false_iff]
      intro h
      exact hrank (List.isEmpty_iff.mp h)
    have hpipe : executePipeline o req = .ok
        { results := outs, consolidated := cons,
          meta := { repo := req.repo, branch := req.branch,
                    selectedFiles := [], keywords := imp.keywords,
                    warning := some
                      "Could not load any files. Running with prompt-only context." } } := by
      simp only [executePipeline, himp, htree, bind, Except.bind]
      rw [if_neg (by simp [hie]), hload]
      simp only [List.isEmpty_nil, if_true]
      rw [hrun, hcons]
      rfl
    exact ⟨_, hpipe, rfl, rfl, rfl⟩
  · intro now limits req o hbasic hrepo hscope hres
    simp only [agentRoutePOST]
    rw [if_neg hbasic, if_neg hrepo, if_neg hscope, hres]
    rfl
  · intro now limits req o paths hbasic hrepo hscope hres hne hload
    simp only [agentRoutePOST]
    rw [if_neg hbasic, if_neg hrepo, if_neg hscope, hres]
    dsimp only
    rw [if_neg hne, if_pos hload]

/-- Concrete pipeline request for the C4 witness. -/
def c4PipeReq : PipelineRunRequest :=
  ⟨"o/r", "main", "sys", "goal", [.openai], ⟨none, none, none⟩,
    .openai, none, .openai, none⟩

/-- Oracles whose tree is empty (zero ranked candidates) and whose model
and consolidation calls succeed. -/
def c4PipeOracles : PipelineOracles :=
  ⟨.ok ⟨"p", ["kw"], 12⟩, .ok [], fun _ => none, id,
    fun _ _ _ _ => .ok "out", .ok "cons"⟩

/-- Agent request whose scope is three commits, for the zero-file case. -/
def c4AgentReq : AgentRunRequest :=
  ⟨"o/r", "main", "sys", "goal", some "3", [.openai], ⟨none, none, none⟩,
    none⟩

/-- Agent request whose scope is a single file, for the unloadable case. -/
def c4AgentReqFile : AgentRunRequest :=
  ⟨"o/r", "main", "sys", "goal", some "src/a.ts", [.openai],
    ⟨none, none, none⟩, none⟩

/-- Agent oracles: no commit yields files and every content fetch fails. -/
def c4AgentOracles : AgentOracles :=
  ⟨.ok [], fun _ => [], fun _ => none, fun _ _ _ => .error "no",
    .error "no", .ok none⟩

/-- Oracles with one ranked candidate whose content fetch fails, so the
loader returns zero files. -/
def c4PipeOraclesLoad : PipelineOracles :=
  ⟨.ok ⟨"p", ["kw"], 12⟩, .ok [⟨"kw.ts", "blob", "x"⟩], fun _ => none, id,
    fun _ _ _ _ => .ok "out", .ok "cons"⟩

/-- C4 witness: the four clauses applied at concrete inputs — a run with
zero ranked candidates completes with the first warning; a run whose only
candidate fails to load completes with the second warning; a commits scope
with no changed files is rejected; a file scope whose content cannot be
fetched is rejected with the caps message. -/
theorem claim_C4_witness :
    (∃ r, executePipeline c4PipeOracles c4PipeReq = .ok r ∧
      r.meta.warning =
        some "No relevant files found. Running with prompt-only context." ∧
      r.meta.selectedFiles = [] ∧ r.consolidated = "cons") ∧
    (∃ r, executePipeline c4PipeOraclesLoad c4PipeReq = .ok r ∧
      r.meta.warning =
        some "Could not load any files. Running with prompt-only context." ∧
      r.meta.selectedFiles = [] ∧ r.consolidated = "cons") ∧
    agentRoutePOST 0 [] c4AgentReq c4AgentOracles =
      .reject 400
        "No files found for scope: Review files changed in last 3 commit(s)" ∧
    agentRoutePOST 0 [] c4AgentReqFile c4AgentOracles =
      .reject 400 "Found file paths but could not load contents within caps." := by
  refine ⟨claim_C4_empty_set_asymmetry.1 c4PipeOracles c4PipeReq
    ⟨"p", ["kw"], 12⟩ [] [⟨.openai, "out"⟩] "cons" rfl rfl (by decide) rfl rfl,
    claim_C4_empty_set_asymmetry.2.1 c4PipeOraclesLoad c4PipeReq
    ⟨"p", ["kw"], 12⟩ [⟨"kw.ts", "blob", "x"⟩] [⟨.openai, "out"⟩] "cons"
    rfl rfl (by decide) (by decide) rfl rfl,
    ?_, ?_⟩
  · exact (claim_C4_empty_set_asymmetry.2.2.1 0 [] c4AgentReq c4AgentOracles
      (by decide) (by decide) (by decide) rfl).trans (by decide)
  · exact claim_C4_empty_set_asymmetry.2.2.2 0 [] c4AgentReqFile c4AgentOracles
      ["src/a.ts"] (by decide) (by decide) (by decide) rfl (by decide)
      (by decide)

/-! ### Candidate-list size handed to the loader (C5) -/

/-- A tree of 26 distinct files all matching the keyword `modal`. -/
def c5Tree : List TreeItem :=
  (List.range 26).map (fun i => ⟨"modal" ++ numToString i ++ ".ts", "blob", "x"⟩)

/-- Pipeline request and oracles under which all 26 ranked paths load. -/
def c5Req : PipelineRunRequest :=
  ⟨"o/r", "main", "sys", "goal", [.openai], ⟨none, none, none⟩,
    .openai, none, .openai, none⟩

def c5Oracles : PipelineOracles :=
  ⟨.ok ⟨"p", ["modal"], 13⟩, .ok c5Tree, fun _ => some "x", id,
    fun _ _ _ _ => .ok "out", .ok "cons"⟩

/-- C5, counterexample: with `maxFiles = 13` the ranked list passed to the
bounded loader has 26 entries (`max(13*2, 20) = 26 > 25`) — `executePipeline`
performs no truncation to 25, and indeed all 26 files appear in the
result's `selectedFiles`. -/
theorem claim_C5_counterexample :
    (rankFiles c5Tree ["modal"] 13).length = 26 ∧
    ∃ r, executePipeline c5Oracles c5Req = .ok r ∧
      r.meta.selectedFiles.length = 26 := by
  exact ⟨by decide, ⟨_, rfl, by decide⟩⟩

/-- C5 (amended): the candidate list `executePipeline` hands to the loader
is exactly `rankFiles`' output, untruncated; its length is bounded by
`max(maxFiles * 2, 20)`, hence by 50 whenever `maxFiles ≤ 25` (the improver
stage clamps `maxFiles` into `[4, 25]`), but not by 25. -/
theorem claim_C5_amended (tree : List TreeItem) (keywords : List String)
    (maxFiles : Nat) :
    (rankFiles tree keywords maxFiles).length ≤ max (maxFiles * 2) 20 ∧
    (maxFiles ≤ 25 → (rankFiles tree keywords maxFiles).length ≤ 50) := by
  have hbound : (rankFiles tree keywords maxFiles).length ≤
      max (maxFiles * 2) 20 := by
    unfold rankFiles
    simp only [List.length_map, List.length_take]
    exact min_le_left _ _
  refine ⟨hbound, fun h => le_trans hbound (max_le (by omega) (by norm_num))⟩

/-- C5 witness: the amended bound at the concrete 26-path instance. -/
theorem claim_C5_witness :
    (rankFiles c5Tree ["modal"] 13).length ≤ max (13 * 2) 20 ∧
    (rankFiles c5Tree ["modal"] 13).length ≤ 50 :=
  ⟨(claim_C5_amended c5Tree ["modal"] 13).1,
    (claim_C5_amended c5Tree ["modal"] 13).2 (by norm_num)⟩

/-! ### Scope parsing (C8) -/

theorem dropWhile_eq_self_of_all {p : Char → Bool} {l : List Char}
    (h : ∀ c ∈ l, p c = false) : l.dropWhile p = l := by
  induction l with
  | nil => rfl
  | cons c rest _ =>
    rw [List.dropWhile_cons, h c (List.mem_cons_self c rest)]
    simp

theorem takeWhile_eq_self_of_all {p : Char → Bool} {l : List Char}
    (h : ∀ c ∈ l, p c = true) : l.takeWhile p = l := by
  induction l with
  | nil => rfl
  | cons c rest ih =>
    rw [List.takeWhile_cons, h c (List.mem_cons_self c rest)]
    simp only [if_true]
    rw [ih (fun d hd => h d (List.mem_cons_of_mem c hd))]

theorem dropWhile_idem (p : Char → Bool) (l : List Char) :
    (l.dropWhile p).dropWhile p = l.dropWhile p := by
  induction l with
  | nil => rfl
  | cons c rest ih =>
    rw [List.dropWhile_cons]
    by_cases h : p c = true
    · rw [if_pos h]
      exact ih
    · rw [if_neg h, List.dropWhile_cons]
      have h2 : p c = false := by simpa using h
      rw [h2]
      simp

theorem dropWhile_head_not (p : Char → Bool) :
    ∀ (l : List Char) (c : Char) (rest : List Char),
      l.dropWhile p = c :: rest → p c = false := by
  intro l
  induction l with
  | nil => intro c rest h; exact absurd h (by simp)
  | cons a as ih =>
    intro c rest h
    rw [List.dropWhile_cons] at h
    by_cases ha : p a = true
    · rw [if_pos ha] at h
      exact ih c rest h
    · rw [if_neg ha] at h
      injection h with h1 _
      subst h1
      simpa using ha

/-- Trailing-trim yields a prefix of the original list. -/
theorem trailingTrim_prefix (p : Char → Bool) (l : List Char) :
    (l.reverse.dropWhile p).reverse <+: l := by
  have hs : l.reverse.dropWhile p <:+ l.reverse := List.dropWhile_suffix p
  have := List.reverse_prefix.mpr hs
  rwa [List.reverse_reverse] at this

/-- JavaScript `trim` is idempotent. -/
theorem jsTrimList_idem (l : List Char) : jsTrimList (jsTrimList l) = jsTrimList l := by
  unfold jsTrimList
  set A := l.dropWhile jsWhitespace with hA
  set B := (A.reverse.dropWhile jsWhitespace).reverse with hB
  have hBdrop : B.dropWhile jsWhitespace = B := by
    cases hAc : A with
    | nil =>
      have : B = [] := by rw [hB, hAc]; rfl
      rw [this]
      rfl
    | cons c rest =>
      have hc : jsWhitespace c = false := by
        apply dropWhile_head_not jsWhitespace l c rest
        rw [← hA]
        exact hAc
      have hpre : B <+: A := by
        rw [hB]
        exact trailingTrim_prefix jsWhitespace A
      cases hBc : B with
      | nil => rfl
      | cons b bs =>
        obtain ⟨t, ht⟩ := hpre
        rw [hBc, hAc] at ht
        injection ht with h1 _
        rw [List.dropWhile_cons, h1, hc]
        simp
  rw [hBdrop, hB, List.reverse_reverse, dropWhile_idem]

/-- Trimming a string with no whitespace anywhere is the identity. -/
theorem jsTrimList_eq_self_of_all {l : List Char}
    (h : ∀ c ∈ l, jsWhitespace c = false) : jsTrimList l = l := by
  unfold jsTrimList
  rw [dropWhile_eq_self_of_all h,
    dropWhile_eq_self_of_all (fun c hc => h c (List.mem_reverse.mp hc)),
    List.reverse_reverse]

/-- Digit characters: recognized as digits, not whitespace, not signs, and
with the expected code point. -/
theorem digitChar_facts (m : Nat) (h : m < 10) :
    (digitChar m).isDigit = true ∧ (digitChar m).isWhitespace = false ∧
    digitChar m ≠ '-' ∧ digitChar m ≠ '+' ∧ (digitChar m).toNat = 48 + m := by
  interval_cases m <;> exact ⟨by decide, by decide, by decide, by decide, by decide⟩

/-- The decimal printer is correct: non-empty all-digit output that parses
back to its input. -/
theorem numToCharsAux_spec :
    ∀ (fuel n : Nat), n < fuel →
      numToCharsAux fuel n ≠ [] ∧
      (∀ c ∈ numToCharsAux fuel n, c.isDigit = true) ∧
      digitsToNat (numToCharsAux fuel n) = n := by
  intro fuel
  induction fuel with
  | zero => intro n h; omega
  | succ fuel ih =>
    intro n h
    by_cases h10 : n < 10
    · have heq : numToCharsAux (fuel + 1) n = [digitChar n] := by
        simp only [numToCharsAux]
        rw [if_pos h10]
      rw [heq]
      obtain ⟨hd, _, _, _, hval⟩ := digitChar_facts n h10
      refine ⟨by simp, ?_, ?_⟩
      · intro c hc
        rw [List.mem_singleton.mp hc]
        exact hd
      · simp only [digitsToNat, List.foldl_cons, List.foldl_nil]
        omega
    · have heq : numToCharsAux (fuel + 1) n =
          numToCharsAux fuel (n / 10) ++ [digitChar (n % 10)] := by
        simp only [numToCharsAux]
        rw [if_neg h10]
      have hdiv : n / 10 < fuel := by
        have h1 : n / 10 < n := Nat.div_lt_self (by omega) (by norm_num)
        omega
      obtain ⟨hne, hdig, hval⟩ := ih (n / 10) hdiv
      obtain ⟨hd2, _, _, _, hval2⟩ := digitChar_facts (n % 10)
        (Nat.mod_lt n (by norm_num))
      rw [heq]
      refine ⟨by simp, ?_, ?_⟩
      · intro c hc
        rcases List.mem_append.mp hc with hc | hc
        · exact hdig c hc
        · rw [List.mem_singleton.mp hc]
          exact hd2
      · show ((numToCharsAux fuel (n / 10)) ++
          [digitChar (n % 10)]).foldl (fun acc c => acc * 10 + (c.toNat - 48)) 0 = n
        rw [List.foldl_append]
        show digitsToNat (numToCharsAux fuel (n / 10)) * 10 +
          ((digitChar (n % 10)).toNat - 48) = n
        rw [hval, hval2]
        omega

theorem numToChars_ne_nil (n : Nat) : numToChars n ≠ [] :=
  (numToCharsAux_spec (n + 1) n (by omega)).1

theorem numToChars_digits (n : Nat) : ∀ c ∈ numToChars n, c.isDigit = true :=
  (numToCharsAux_spec (n + 1) n (by omega)).2.1

theorem digitsToNat_numToChars (n : Nat) : digitsToNat (numToChars n) = n :=
  (numToCharsAux_spec (n + 1) n (by omega)).2.2

/-- The decimal printer is injective. -/
theorem numToString_inj (a b : Nat) (h : numToString a = numToString b) :
    a = b := by
  have h2 : numToChars a = numToChars b := congrArg String.data h
  have := congrArg digitsToNat h2
  rwa [digitsToNat_numToChars, digitsToNat_numToChars] at this

theorem isDigit_not_ws (c : Char) (h : c.isDigit = true) :
    jsWhitespace c = false := by
  cases hw : jsWhitespace c
  · rfl
  · have hmem : c ∈ ([' ', '\t', '\n', '\r', '\x0b', '\x0c', ' ',
        ' ', ' ', ' ', ' ', ' ', ' ', ' ',
        ' ', ' ', ' ', ' ', ' ', ' ', ' ',
        ' ', ' ', '　', '﻿'] : List Char) := by
      simpa [jsWhitespace] using hw
    fin_cases hmem <;> exact absurd h (by decide)

theorem numToChars_not_ws (n : Nat) :
    ∀ c ∈ numToChars n, jsWhitespace c = false :=
  fun c hc => isDigit_not_ws c (numToChars_digits n c hc)

/-- `trim` leaves a decimal numeral unchanged. -/
theorem jsTrim_numToString (n : Nat) : jsTrim (numToString n) = numToString n := by
  show String.mk (jsTrimList (numToChars n)) = String.mk (numToChars n)
  rw [jsTrimList_eq_self_of_all (numToChars_not_ws n)]

/-- `parseInt` applied to a decimal numeral: the exact value, rounded to
double precision. -/
theorem parseInt10_numToString (n : Nat) :
    parseInt10 (numToString n) = some ((roundToDouble53 n : Nat) : Int) := by
  obtain ⟨c, rest, hcr⟩ := List.exists_cons_of_ne_nil (numToChars_ne_nil n)
  have hdigc : c.isDigit = true :=
    numToChars_digits n c (by rw [hcr]; exact List.mem_cons_self c rest)
  have hsign : stripSign (c :: rest) = (false, c :: rest) := by
    simp only [stripSign]
    rw [if_neg ?_, if_neg ?_]
    · rintro rfl
      exact absurd hdigc (by decide)
    · rintro rfl
      exact absurd hdigc (by decide)
  show parseInt10 (String.mk (numToChars n)) = _
  unfold parseInt10
  dsimp only
  rw [dropWhile_eq_self_of_all (numToChars_not_ws n), hcr, hsign]
  dsimp only
  rw [takeWhile_eq_self_of_all (fun d hd => numToChars_digits n d
    (by rw [hcr]; exact hd))]
  rw [if_neg (by simp), if_neg (by simp), ← hcr, digitsToNat_numToChars]

theorem jsTrim_idem (s : String) : jsTrim (jsTrim s) = jsTrim s :=
  congrArg String.mk (jsTrimList_idem s.data)

theorem numToString_ne_empty (n : Nat) : numToString n ≠ "" := by
  intro h
  exact numToChars_ne_nil n (congrArg String.data h)

/-- A canonical positive numeral whose value survives double rounding and
lies below the `1e21` exponential-notation threshold is recognized as a
commit count. -/
theorem isCommitCount_numToString (n : Nat) (hn : 0 < n)
    (hrep : roundToDouble53 n = n) (hlt : n < 10 ^ 21) :
    isCommitCount (numToString n) = true := by
  unfold isCommitCount
  rw [parseInt10_numToString n, hrep]
  dsimp only
  rw [Bool.and_eq_true, Bool.and_eq_true]
  refine ⟨⟨decide_eq_true (by exact_mod_cast hn),
    decide_eq_true (by exact_mod_cast hlt)⟩, decide_eq_true ?_⟩
  rw [jsTrim_numToString]
  unfold intToString
  rw [if_neg (not_lt.mpr (Int.natCast_nonneg n)), Int.toNat_natCast]

/-- Conversely, on a trimmed string a recognized commit count is a
canonical positive numeral. -/
theorem isCommitCount_exists {t : String} (htrim : jsTrim t = t)
    (h : isCommitCount t = true) :
    ∃ n : Nat, 0 < n ∧ t = numToString n := by
  unfold isCommitCount at h
  cases hp : parseInt10 t with
  | none => rw [hp] at h; exact absurd h (by simp)
  | some m =>
    rw [hp] at h
    dsimp only at h
    rw [Bool.and_eq_true, Bool.and_eq_true, decide_eq_true_eq,
      decide_eq_true_eq, decide_eq_true_eq] at h
    obtain ⟨⟨hm, -⟩, heq⟩ := h
    refine ⟨m.toNat, by omega, ?_⟩
    rw [htrim] at heq
    rw [← heq]
    unfold intToString
    rw [if_neg (by omega)]

/-- A canonical numeral whose value does not survive rounding (or lies at
or beyond `1e21`) is not recognized as a commit count. -/
theorem isCommitCount_numToString_false (n : Nat)
    (h : roundToDouble53 n ≠ n ∨ 10 ^ 21 ≤ n) :
    isCommitCount (numToString n) = false := by
  rw [Bool.eq_false_iff]
  intro hcc
  unfold isCommitCount at hcc
  rw [parseInt10_numToString n] at hcc
  dsimp only at hcc
  rw [Bool.and_eq_true, Bool.and_eq_true, decide_eq_true_eq,
    decide_eq_true_eq, decide_eq_true_eq] at hcc
  obtain ⟨⟨-, h21⟩, heq⟩ := hcc
  rw [jsTrim_numToString] at heq
  have heq2 : numToString (roundToDouble53 n) = numToString n := by
    rw [← heq]
    unfold intToString
    rw [if_neg (not_lt.mpr (Int.natCast_nonneg _)), Int.toNat_natCast]
  have hrn : roundToDouble53 n = n := numToString_inj _ _ heq2
  rcases h with h | h
  · exact h hrn
  · rw [hrn] at h21
    have : n < 10 ^ 21 := by exact_mod_cast h21
    omega

/-- C8, counterexample: `"9007199254740993"` is exactly the canonical
numeral of the positive integer `2^53 + 1`, yet `parseScope` classifies it
`invalid`, not `commits`: `parseInt` returns a double, rounding the value
to `9007199254740992`, so `num.toString() === scope.trim()` fails. -/
theorem claim_C8_counterexample :
    0 < 9007199254740993 ∧
    ("9007199254740993" : String) = numToString 9007199254740993 ∧
    parseScope (some "9007199254740993") =
      ⟨.invalid, "9007199254740993", none⟩ := by
  refine ⟨by norm_num, by decide, by decide⟩

/-- C8 (amended): `parseScope` classifies its trimmed argument by the
spec's sequential case analysis, with the integer case restricted to the
values `parseInt`'s double arithmetic preserves — empty input to `empty`;
exactly a canonical positive decimal integer whose value survives 53-bit
rounding and lies below `1e21` to `commits(n)` (a canonical numeral whose
value does not is classified like any non-numeral, e.g. `invalid` when no
glob character or separator follows); otherwise a `* ? [` character to
`glob`; otherwise a `/` to `file`; otherwise `invalid` — together with the
claim's five concrete examples. -/
theorem claim_C8_parseScope_cases (raw : String) :
    (parseScope (some "") = ⟨.empty, "", none⟩ ∧
      parseScope (some "12") = ⟨.commits, "12", some 12⟩ ∧
      parseScope (some "src/**/*.ts") = ⟨.glob, "src/**/*.ts", none⟩ ∧
      parseScope (some "src/lib/foo.ts") = ⟨.file, "src/lib/foo.ts", none⟩ ∧
      parseScope (some "!!!") = ⟨.invalid, "!!!", none⟩) ∧
    (jsTrim raw = "" → parseScope (some raw) = ⟨.empty, "", none⟩) ∧
    (∀ n : Nat, 0 < n → roundToDouble53 n = n → n < 10 ^ 21 →
      jsTrim raw = numToString n →
      parseScope (some raw) = ⟨.commits, jsTrim raw, some n⟩) ∧
    (∀ n : Nat, 0 < n → (roundToDouble53 n ≠ n ∨ 10 ^ 21 ≤ n) →
      jsTrim raw = numToString n →
      isGlobPattern (jsTrim raw) = false →
      jsIncludes (jsTrim raw) "/" = false →
      parseScope (some raw) = ⟨.invalid, jsTrim raw, none⟩) ∧
    ((¬∃ n : Nat, 0 < n ∧ jsTrim raw = numToString n) →
      isGlobPattern (jsTrim raw) = true →
      parseScope (some raw) = ⟨.glob, jsTrim raw, none⟩) ∧
    ((¬∃ n : Nat, 0 < n ∧ jsTrim raw = numToString n) →
      isGlobPattern (jsTrim raw) = false →
      jsIncludes (jsTrim raw) "/" = true →
      parseScope (some raw) = ⟨.file, jsTrim raw, none⟩) ∧
    ((¬∃ n : Nat, 0 < n ∧ jsTrim raw = numToString n) →
      jsTrim raw ≠ "" →
      isGlobPattern (jsTrim raw) = false →
      jsIncludes (jsTrim raw) "/" = false →
      parseScope (some raw) = ⟨.invalid, jsTrim raw, none⟩) := by
  have hccFalse : (¬∃ n : Nat, 0 < n ∧ jsTrim raw = numToString n) →
      ¬isCommitCount (jsTrim raw) = true := by
    intro hnot hcc
    exact hnot (isCommitCount_exists (jsTrim_idem raw) hcc)
  refine ⟨⟨by decide, by decide, by decide, by decide, by decide⟩,
    ?_, ?_, ?_, ?_, ?_, ?_⟩
  · intro h
    simp only [parseScope, Option.getD_some]
    rw [h]
    simp
  · intro n hn hrep hlt ht
    have hne : jsTrim raw ≠ "" := by rw [ht]; exact numToString_ne_empty n
    have hcc : isCommitCount (jsTrim raw) = true := by
      rw [ht]; exact isCommitCount_numToString n hn hrep hlt
    simp only [parseScope, Option.getD_some]
    rw [if_neg hne, if_pos hcc, ht, parseInt10_numToString n, hrep]
    simp
  · intro n hn hbad ht hglob hsep
    have hne : jsTrim raw ≠ "" := by rw [ht]; exact numToString_ne_empty n
    have hcc : isCommitCount (jsTrim raw) = false := by
      rw [ht]; exact isCommitCount_numToString_false n hbad
    have hfp : isFilePath (jsTrim raw) = false := by
      simp [isFilePath, hsep]
    simp only [parseScope, Option.getD_some]
    rw [if_neg hne, if_neg (by simp [hcc]), if_neg (by simp [hglob]),
      if_neg (by simp [hfp]), if_neg (by simp [hsep])]
  · intro hnot hglob
    have hne : jsTrim raw ≠ "" := by
      intro h0
      rw [h0] at hglob
      exact absurd hglob (by decide)
    simp only [parseScope, Option.getD_some]
    rw [if_neg hne, if_neg (hccFalse hnot), if_pos hglob]
  · intro hnot hglob hsep
    have hne : jsTrim raw ≠ "" := by
      intro h0
      rw [h0] at hsep
      exact absurd hsep (by decide)
    simp only [parseScope, Option.getD_some]
    rw [if_neg hne, if_neg (hccFalse hnot), if_neg (by simp [hglob])]
    by_cases hfp : isFilePath (jsTrim raw) = true
    · rw [if_pos hfp]
    · rw [if_neg hfp, if_pos hsep]
  · intro hnot hne hglob hsep
    have hfp : isFilePath (jsTrim raw) = false := by
      simp [isFilePath, hsep]
    simp only [parseScope, Option.getD_some]
    rw [if_neg hne, if_neg (hccFalse hnot), if_neg (by simp [hglob]),
      if_neg (by simp [hfp]), if_neg (by simp [hsep])]

/-- C8 witness: the commits clause at `" 12 "` (in-range, exactly
representable), the rounding clause at the counterexample numeral, and the
file clause at `"a/b"`. -/
theorem claim_C8_witness :
    parseScope (some " 12 ") = ⟨.commits, "12", some 12⟩ ∧
    parseScope (some "9007199254740993") =
      ⟨.invalid, "9007199254740993", none⟩ ∧
    parseScope (some "a/b") = ⟨.file, "a/b", none⟩ := by
  refine ⟨?_, ?_, ?_⟩
  · exact ((claim_C8_parseScope_cases " 12 ").2.2.1 12 (by norm_num)
      (by decide) (by norm_num) (by decide)).trans (by decide)
  · exact ((claim_C8_parseScope_cases "9007199254740993").2.2.2.1
      9007199254740993 (by norm_num) (.inl (by decide)) (by decide)
      (by decide) (by decide)).trans (by decide)
  · refine ((claim_C8_parseScope_cases "a/b").2.2.2.2.2.1 ?_ (by decide)
      (by decide)).trans (by decide)
    rintro ⟨n, hn, he⟩
    have he2 : ("a/b" : String) = numToString n := by
      have ht : jsTrim "a/b" = "a/b" := by decide
      rw [← ht]
      exact he
    have hmem : 'a' ∈ numToChars n := by
      rw [← show (numToString n).data = numToChars n from rfl, ← he2]
      decide
    exact absurd (numToChars_digits n 'a' hmem) (by decide)
